import Mathlib

/-!
# Groupie-Tracker: the filter / sort pipeline of `handleRequest` (api.go)

A shallow embedding of the pure part of `api.go`:

* Go strings are modelled by `String` (a list of runes).  All strings the handler
  compares are valid UTF-8 (they come out of the JSON decoder), and on valid UTF-8
  Go's byte-wise `strings.Contains`, `==` and `<` coincide with the rune-wise ones.
* Go `int` is modelled by `Int`; the only arithmetic on it is comparison, and
  `strconv.Atoi` reports a range error outside the 64-bit range.
* A Go `map[string][]string` is modelled by its list of entries, in the order in
  which `range` enumerates them in one run.
* The two HTTP fetches and the template are outside the model: the handler is a
  function of the query parameters and of the two decoded data sets.
-/

namespace GroupieTracker

/-! ## Data model (api.go, lines 14-42) -/

/-- Artiste: the decoded artist record. -/
structure Artiste where
  ID : Int
  Image : String
  Name : String
  Members : List String
  CreationDate : Int
  FirstAlbum : String
deriving DecidableEq, Repr

/-- One element of `Relation.Index`: the anonymous struct with `Id` and `DatesLocations`. -/
structure RelationEntry where
  Id : Int
  DatesLocations : List (String × List String)
deriving DecidableEq, Repr

/-- Relation: the decoded relation set. -/
structure Relation where
  Index : List RelationEntry
deriving DecidableEq, Repr

/-- The query parameters read at the top of `handleRequest` (lines 69-96):
`Get` yields the empty string for an absent parameter, `numMembers` is repeatable. -/
structure Query where
  searchQuery : String
  memberSearch : String
  sortBy : String
  orderBy : String
  minYear : String
  maxYear : String
  numMembers : List String
  country : String
deriving DecidableEq, Repr

/-! ## The artists of the end-to-end scenarios of the specification -/

/-- Scenario artist: Queen, two members, formed 1970. -/
def queen : Artiste :=
  { ID := 1, Image := "", Name := "Queen", Members := ["Freddie", "Brian"],
    CreationDate := 1970, FirstAlbum := "13-07-1973" }

/-- Scenario artist: a group formed 1965. -/
def artist1965 : Artiste :=
  { ID := 2, Image := "", Name := "Scorpions", Members := ["Klaus", "Rudolf"],
    CreationDate := 1965, FirstAlbum := "01-02-1972" }

/-- Scenario artist: an artist whose member list is empty. -/
def memberless : Artiste :=
  { ID := 3, Image := "", Name := "Solo", Members := [],
    CreationDate := 1980, FirstAlbum := "01-01-1981" }

/-- The request without any parameter. -/
def emptyQuery : Query :=
  { searchQuery := "", memberSearch := "", sortBy := "", orderBy := "",
    minYear := "", maxYear := "", numMembers := [], country := "" }

/-- A request that selects the member counts 2 and 0, with one value that is not a
number, and sorts by creation year. -/
def countQuery : Query :=
  { searchQuery := "", memberSearch := "", sortBy := "creationDate", orderBy := "asc",
    minYear := "", maxYear := "", numMembers := ["2", "0", "x"], country := "" }

/-- Scenario 3 as the specification words it: the entry with Queen's id has the
location key "04-07-1970-Paris,France". -/
def relationByLocationKey : Relation :=
  { Index := [{ Id := 1,
                DatesLocations := [("04-07-1970-Paris,France", ["04-07-1970"])] }] }

/-- Scenario 3 with the artist's name as the map key and the location in the list. -/
def relationByNameKey : Relation :=
  { Index := [{ Id := 1, DatesLocations := [("Queen", ["04-07-1970-Paris,France"])] }] }

/-- A relation set with three location keys in two countries. -/
def relationTour : Relation :=
  { Index := [{ Id := 1,
                DatesLocations := [("London, UK", ["01-02-1975"]),
                                   ("Paris,France", ["04-07-1970"])] },
              { Id := 2, DatesLocations := [("Lyon,France ", ["05-07-1970"])] }] }

/-- A relation set whose first entry has the key "Queen" with an empty list and whose
second entry places Queen in France. -/
def relationEmptyThenFrance : Relation :=
  { Index := [{ Id := 1, DatesLocations := [("Queen", [])] },
              { Id := 2, DatesLocations := [("Queen", ["Paris, France"])] }] }

/-- The same first entry, followed by an entry that places Queen in the UK. -/
def relationEmptyThenUK : Relation :=
  { Index := [{ Id := 1, DatesLocations := [("Queen", [])] },
              { Id := 2, DatesLocations := [("Queen", ["London, UK"])] }] }

/-- Scenario 3 by name key, with another id and further keys in the map. -/
def relationOtherIdAndKeys : Relation :=
  { Index := [{ Id := 99,
                DatesLocations := [("Paris,France", ["04-07-1970"]),
                                   ("Queen", ["04-07-1970-Paris,France"]),
                                   ("Berlin,Germany", [])] }] }

/-! ## Go standard library, as far as the handler uses it -/

/-- Whether the rune list `s` begins with `p` (strings.HasPrefix). -/
def startsWith : List Char → List Char → Bool
  | _, [] => true
  | [], _ :: _ => false
  | c :: s, p :: ps => c == p && startsWith s ps

/-- Whether `substr` occurs in `s` at some position (strings.Index ≥ 0). -/
def containsRunes : List Char → List Char → Bool
  | [], substr => startsWith [] substr
  | c :: s, substr => startsWith (c :: s) substr || containsRunes s substr

/-- Model of strings.Contains. -/
def Contains (s substr : String) : Bool :=
  containsRunes s.data substr.data

/-- Model of strings.ToLower: the rune-wise image under unicode.ToLower.  The Unicode
case table is not part of the repository; it is the parameter `lowerRune`. -/
def ToLower (lowerRune : Char → Char) (s : String) : String :=
  ⟨s.data.map lowerRune⟩

/-- The restriction of unicode.ToLower to ASCII, used to evaluate concrete requests. -/
def asciiLower (c : Char) : Char :=
  if 'A' ≤ c ∧ c ≤ 'Z' then Char.ofNat (c.toNat + 32) else c

/-- Model of unicode.IsSpace: the Latin-1 cases and the White_Space table. -/
def isSpace (c : Char) : Bool :=
  let r := c.toNat
  (9 ≤ r && r ≤ 13) || r == 0x20 || r == 0x85 || r == 0xA0 || r == 0x1680 ||
  (0x2000 ≤ r && r ≤ 0x200a) || r == 0x2028 || r == 0x2029 || r == 0x202f ||
  r == 0x205f || r == 0x3000

/-- Model of strings.TrimSpace: leading and trailing white space removed. -/
def TrimSpace (s : String) : String :=
  ⟨((s.data.dropWhile isSpace).reverse.dropWhile isSpace).reverse⟩

/-- The pieces of a rune list between the occurrences of `sep`. -/
def splitRunes (sep : Char) : List Char → List (List Char)
  | [] => [[]]
  | c :: s =>
    if c = sep then [] :: splitRunes sep s
    else
      match splitRunes sep s with
      | [] => [[c]]
      | p :: ps => (c :: p) :: ps

/-- Model of strings.Split for a one-rune separator: never empty. -/
def Split (s : String) (sep : Char) : List String :=
  (splitRunes sep s.data).map String.mk

/-- The country of a location string, `strings.TrimSpace(parts[len(parts)-1])` for
`parts := strings.Split(location, ",")`, as written three times in api.go. -/
def lastPartTrimmed (location : String) : String :=
  let parts := Split location ','
  TrimSpace (parts.getLastD "")

/-- An ASCII decimal digit. -/
def isDigit (c : Char) : Bool :=
  decide ('0' ≤ c) && decide (c ≤ '9')

/-- The value of a decimal digit. -/
def digitVal (c : Char) : Nat :=
  c.toNat - 48

/-- Decimal value of a run of digits, `none` when some rune is not a digit. -/
def parseDigits : List Char → Nat → Option Nat
  | [], n => some n
  | c :: s, n => if isDigit c then parseDigits s (n * 10 + digitVal c) else none

/-- Model of strconv.Atoi on a 64-bit platform: an optional sign, then at least one
decimal digit and nothing else; `none` stands for a non-nil error (syntax or range). -/
def Atoi (s : String) : Option Int :=
  match s.data with
  | [] => none
  | c :: rest =>
    let neg := c == '-'
    let digits := if c == '-' || c == '+' then rest else c :: rest
    if digits.isEmpty then none
    else
      match parseDigits digits 0 with
      | none => none
      | some n =>
        if neg then (if n ≤ 2 ^ 63 then some (-(n : Int)) else none)
        else (if n < 2 ^ 63 then some (n : Int) else none)

/-- Go's `<` on strings, rune by rune: a proper initial segment is smaller. -/
def lessRunes : List Char → List Char → Bool
  | _, [] => false
  | [], _ :: _ => true
  | a :: as, b :: bs =>
    if a < b then true else if a = b then lessRunes as bs else false

/-- Go's `s < t` on strings. -/
def stringLess (s t : String) : Bool :=
  lessRunes s.data t.data

/-- One insertion step of the stable sort: `x` arrives in front of the sorted list
and moves right past the elements that are less than it. -/
def insertStable {α : Type} (less : α → α → Bool) (x : α) : List α → List α
  | [] => [x]
  | y :: ys => if less y x then y :: insertStable less x ys else x :: y :: ys

/-- Model of sort.SliceStable on the element sequence, from the library contract
(sorts by `less`, equal elements keep their original order): stable insertion sort. -/
def SliceStable {α : Type} (less : α → α → Bool) : List α → List α
  | [] => []
  | x :: xs => insertStable less x (SliceStable less xs)

/-- Model of sort.Strings: increasing order of Go's `<`. -/
def sortStrings (l : List String) : List String :=
  SliceStable stringLess l

/-! ### time.Parse for the layout "02-01-2006" -/

/-- time.getnum: one or two digits, exactly two when `fixed`. -/
def getnum : List Char → Bool → Option (Nat × List Char)
  | [], _ => none
  | [c0], fixed =>
    if isDigit c0 then (if fixed then none else some (digitVal c0, [])) else none
  | c0 :: c1 :: rest, fixed =>
    if isDigit c0 then
      if isDigit c1 then some (digitVal c0 * 10 + digitVal c1, rest)
      else if fixed then none else some (digitVal c0, c1 :: rest)
    else none

/-- time.isDigit: whether `s[i]` exists and is a decimal digit. -/
def isDigitAt (s : List Char) (i : Nat) : Bool :=
  match s.get? i with
  | none => false
  | some c => isDigit c

/-- time.skip for a layout literal without blanks: the value must start with it. -/
def skip : List Char → List Char → Option (List Char)
  | value, [] => some value
  | [], _ :: _ => none
  | v :: value, p :: ps => if v = p then skip value ps else none

/-- time.atoi: optional sign, then digits up to the end. -/
def timeAtoi (s : List Char) : Option Int :=
  match s with
  | '-' :: rest => (parseDigits rest 0).map (fun q => -(q : Int))
  | '+' :: rest => (parseDigits rest 0).map (fun q => (q : Int))
  | _ => (parseDigits s 0).map (fun q => (q : Int))

/-- time.isLeap. -/
def isLeap (year : Int) : Bool :=
  year % 4 == 0 && (year % 100 != 0 || year % 400 == 0)

/-- The table time.daysBefore: days in a non-leap year before month `m + 1`. -/
def daysBefore : List Nat :=
  [0, 31, 59, 90, 120, 151, 181, 212, 243, 273, 304, 334, 365]

/-- time.daysIn. -/
def daysIn (m : Nat) (year : Int) : Nat :=
  if m = 2 ∧ isLeap year then 29
  else daysBefore.getD m 0 - daysBefore.getD (m - 1) 0

/-- Model of `time.Parse("02-01-2006", value)`: the layout is the chunk sequence
stdZeroDay, "-", stdZeroMonth, "-", stdLongYear; the result is `(year, month, day)` of
the parsed date, `none` for a non-nil error. -/
def timeParse (value : List Char) : Option (Int × Nat × Nat) :=
  match getnum value true with
  | none => none
  | some (day, value) =>
    match skip value ['-'] with
    | none => none
    | some value =>
      match getnum value true with
      | none => none
      | some (month, value) =>
        if month ≤ 0 ∨ 12 < month then none
        else
          match skip value ['-'] with
          | none => none
          | some value =>
            if value.length < 4 || !isDigitAt value 0 then none
            else
              match timeAtoi (value.take 4) with
              | none => none
              | some year =>
                if (value.drop 4).length ≠ 0 then none
                else if day < 1 ∨ day > daysIn month year then none
                else some (year, month, day)

/-! ## api.go: helpers (lines 252-321) -/

/-- Embedding of parseYear (lines 252-262). -/
def parseYear (date : String) : Int :=
  if date = "" then 0
  else
    match timeParse date.data with
    | none => 0
    | some t => t.1

/-- The map read `m[key]`: the value and `ok`. -/
def mapGet (m : List (String × List String)) (key : String) : Option (List String) :=
  match m with
  | [] => none
  | (k, v) :: rest => if k = key then some v else mapGet rest key

/-- The map write `countryMap[key] = true` on the key set of a `map[string]bool`. -/
def mapSet (countryMap : List String) (key : String) : List String :=
  if key ∈ countryMap then countryMap else countryMap ++ [key]

/-- The key set of `countryMap` after the two nested loops of
extractUniqueCountriesFromRelations (lines 265-273). -/
def countryMap (relations : Relation) : List String :=
  relations.Index.foldl (fun m relation =>
    relation.DatesLocations.foldl (fun m kv =>
      let parts := Split kv.1 ','
      if parts.length > 0 then mapSet m (TrimSpace (parts.getLastD "")) else m) m) []

/-- Embedding of extractUniqueCountriesFromRelations (lines 264-280).  `rangeOrder`
is the order in which the run enumerates the keys of `countryMap` (line 275). -/
def extractUniqueCountriesFromRelations (rangeOrder : List String → List String)
    (relations : Relation) : List String :=
  let countries := rangeOrder (countryMap relations)
  sortStrings countries

/-- The loop of getCountryForArtist over the relation entries (lines 284-293). -/
def countryLoop (artistName : String) : List RelationEntry → String
  | [] => ""
  | relation :: rest =>
    match mapGet relation.DatesLocations artistName with
    | some (location :: _) =>
      let parts := Split location ','
      if parts.length > 0 then TrimSpace (parts.getLastD "") else countryLoop artistName rest
    | _ => countryLoop artistName rest

/-- Embedding of getCountryForArtist (lines 283-294). -/
def getCountryForArtist (artistName : String) (relations : Relation) : String :=
  countryLoop artistName relations.Index

/-- Embedding of getArtistNames (lines 297-303): a slice of `len(artists)` empty
strings, whose element `i` is then set to the name of artist `i`. -/
def getArtistNames (artists : List Artiste) : List String :=
  artists.enum.foldl (fun names ia => names.set ia.1 ia.2.Name)
    (List.replicate artists.length "")

/-- Embedding of getArtistMembers (lines 306-312). -/
def getArtistMembers (artists : List Artiste) : List String :=
  artists.foldl (fun members artist => members ++ artist.Members) []

/-- Embedding of getArtistCreationDates (lines 315-321): a slice of `len(artists)`
zeros, whose element `i` is then set to the creation year of artist `i`. -/
def getArtistCreationDates (artists : List Artiste) : List Int :=
  artists.enum.foldl (fun dates ia => dates.set ia.1 ia.2.CreationDate)
    (List.replicate artists.length 0)

/-! ## api.go: `handleRequest` (lines 68-250) -/

/-- The inner member loop of lines 120-125 and 133-138: whether some member contains
the query, in which case the artist is appended once and the loop is left. -/
def memberLoop (lowerRune : Char → Char) (query : String) : List String → Bool
  | [] => false
  | member :: rest =>
    if Contains (ToLower lowerRune member) (ToLower lowerRune query) then true
    else memberLoop lowerRune query rest

/-- Stage 1, lines 114-127: the value of `filteredArtists` after the first loop. -/
def filteredArtists (lowerRune : Char → Char) (searchQuery : String)
    (artists : List Artiste) : List Artiste :=
  artists.foldl (fun acc artist =>
    if searchQuery ≠ "" ∧
        Contains (ToLower lowerRune artist.Name) (ToLower lowerRune searchQuery) then
      acc ++ [artist]
    else if memberLoop lowerRune searchQuery artist.Members then acc ++ [artist]
    else acc) []

/-- Stage 2, lines 129-141: `filteredArtists` after the member search. -/
def artistsWithMember (lowerRune : Char → Char) (memberQuery : String)
    (filtered : List Artiste) : List Artiste :=
  if memberQuery ≠ "" then
    filtered.foldl (fun acc artist =>
      if memberLoop lowerRune memberQuery artist.Members then acc ++ [artist] else acc) []
  else filtered

/-- Stage 3, lines 143-160: `filteredByNumMembers`. -/
def filteredByNumMembers (numMembersFilters : List String)
    (filtered : List Artiste) : List Artiste :=
  if numMembersFilters.length > 0 then
    filtered.foldl (fun acc artist =>
      numMembersFilters.foldl (fun acc filter =>
        match Atoi filter with
        | none => acc
        | some numMembers =>
          if (artist.Members.length : Int) = numMembers then acc ++ [artist] else acc)
        acc) []
  else filtered

/-- The year bound of lines 82-90: the parsed parameter, or the default. -/
def yearBound (param : String) (dflt : Int) : Int :=
  match Atoi param with
  | none => dflt
  | some y => y

/-- Stage 4, lines 162-168: `filteredByDate`. -/
def filteredByDate (minYear maxYear : Int) (filtered : List Artiste) : List Artiste :=
  filtered.foldl (fun acc artist =>
    if artist.CreationDate ≥ minYear ∧ artist.CreationDate ≤ maxYear then acc ++ [artist]
    else acc) []

/-- The loop of lines 179-185 over the locations of one entry: the value of `found`. -/
def locationLoop (selectedCountry : String) : List String → Bool
  | [] => false
  | location :: rest =>
    let parts := Split location ','
    if parts.length > 0 ∧ TrimSpace (parts.getLastD "") = selectedCountry then true
    else locationLoop selectedCountry rest

/-- The loop of lines 176-190 over the relation entries: the value of `found`. -/
def relationLoop (selectedCountry artistName : String) : List RelationEntry → Bool
  | [] => false
  | relation :: rest =>
    match mapGet relation.DatesLocations artistName with
    | some locations =>
      if locationLoop selectedCountry locations then true
      else relationLoop selectedCountry artistName rest
    | none => relationLoop selectedCountry artistName rest

/-- Stage 5, lines 170-198: `filteredByCountry` before the sort. -/
def filteredByCountry (selectedCountry : String) (relations : Relation)
    (filtered : List Artiste) : List Artiste :=
  if selectedCountry ≠ "" then
    filtered.foldl (fun acc artist =>
      if relationLoop selectedCountry artist.Name relations.Index then acc ++ [artist]
      else acc) []
  else filtered

/-- The comparison closure of lines 201-230, on the two elements it is called for.
A Go `switch` case does not fall into the next one: when `orderBy` is neither "asc"
nor "desc" control leaves the outer switch and reaches the comparison of names. -/
def sortLess (sortBy orderBy : String) (relations : Relation) (a b : Artiste) : Bool :=
  if sortBy = "creationDate" then
    if orderBy = "asc" then decide (a.CreationDate < b.CreationDate)
    else if orderBy = "desc" then decide (a.CreationDate > b.CreationDate)
    else stringLess a.Name b.Name
  else if sortBy = "firstAlbum" then
    if orderBy = "asc" then decide (parseYear a.FirstAlbum < parseYear b.FirstAlbum)
    else if orderBy = "desc" then decide (parseYear a.FirstAlbum > parseYear b.FirstAlbum)
    else stringLess a.Name b.Name
  else if sortBy = "country" then
    let country1 := getCountryForArtist a.Name relations
    let country2 := getCountryForArtist b.Name relations
    if orderBy = "asc" then stringLess country1 country2
    else if orderBy = "desc" then stringLess country2 country1
    else stringLess a.Name b.Name
  else stringLess a.Name b.Name

/-- The sort stage, lines 200-230. -/
def sortStage (sortBy orderBy : String) (relations : Relation)
    (filtered : List Artiste) : List Artiste :=
  SliceStable (sortLess sortBy orderBy relations) filtered

/-- The five filter stages of lines 114-198 in sequence: the list handed to the sort. -/
def filterPipeline (lowerRune : Char → Char) (q : Query) (relations : Relation)
    (artists : List Artiste) : List Artiste :=
  let s1 := filteredArtists lowerRune q.searchQuery artists
  let s2 := artistsWithMember lowerRune q.memberSearch s1
  let s3 := filteredByNumMembers q.numMembers s2
  let s4 := filteredByDate (yearBound q.minYear 0) (yearBound q.maxYear 9999) s3
  filteredByCountry q.country relations s4

/-- Embedding of handleRequest after the two fetches: the `Artists` field of the view
model handed to the template. -/
def handleRequest (lowerRune : Char → Char) (q : Query) (relations : Relation)
    (artists : List Artiste) : List Artiste :=
  sortStage q.sortBy q.orderBy relations (filterPipeline lowerRune q relations artists)

/-! ## Predicates in the words of the specification -/

/-- Stage 1 of the specification: the lower-cased name contains the lower-cased search
string, or some member's lower-cased name does. -/
def matchesSearch (lowerRune : Char → Char) (q : String) (artist : Artiste) : Bool :=
  Contains (ToLower lowerRune artist.Name) (ToLower lowerRune q) ||
    artist.Members.any (fun m => Contains (ToLower lowerRune m) (ToLower lowerRune q))

/-- Stage 3 of the specification: the member count equals one of the selected values
that parse as integers. -/
def matchesNumMembers (numMembers : List String) (artist : Artiste) : Bool :=
  numMembers.any (fun f => decide (Atoi f = some (artist.Members.length : Int)))

/-- Stage 2 of the specification: some member's lower-cased name contains the
lower-cased member-search string. -/
def matchesMember (lowerRune : Char → Char) (m : String) (artist : Artiste) : Bool :=
  artist.Members.any (fun member => Contains (ToLower lowerRune member) (ToLower lowerRune m))

/-- The number a run of decimal digits denotes: each digit weighs ten to the number of
digits after it. -/
def decimalValue : List Char → Nat
  | [] => 0
  | c :: cs => digitVal c * 10 ^ cs.length + decimalValue cs

/-- The integer value of a text: an optional sign followed by one or more decimal
digits denotes an integer of any size; any other text is not an integer. -/
def integerValue (s : String) : Option Int :=
  match s.data with
  | [] => none
  | c :: rest =>
    if c = '-' then
      (if rest ≠ [] ∧ rest.all isDigit = true then some (-(decimalValue rest : Int)) else none)
    else if c = '+' then
      (if rest ≠ [] ∧ rest.all isDigit = true then some (decimalValue rest : Int) else none)
    else if (c :: rest).all isDigit = true then some (decimalValue (c :: rest) : Int)
    else none

/-- The year bound as the claim words it: the integer value of the parameter, or the
default when the parameter is missing or not an integer. -/
def claimedBound (param : String) (dflt : Int) : Int :=
  match integerValue param with
  | some n => n
  | none => dflt

/-- The year bound with the range of Go's 64-bit `int`: the integer value of the
parameter when it lies from -2^63 to 2^63 - 1, and the default when the parameter is
missing, not an integer, or outside that range. -/
def rangedBound (param : String) (dflt : Int) : Int :=
  match integerValue param with
  | some n => if -(2 : Int) ^ 63 ≤ n ∧ n < (2 : Int) ^ 63 then n else dflt
  | none => dflt

/-- Scenario artist: a group with a five-digit creation year. -/
def artist10000 : Artiste :=
  { ID := 4, Image := "", Name := "Future", Members := ["Ada"],
    CreationDate := 10000, FirstAlbum := "" }

/-- The number of days of month `m` of year `y` in the Gregorian calendar. -/
def calendarDays (m y : Nat) : Nat :=
  if m = 2 then (if y % 400 = 0 ∨ (y % 4 = 0 ∧ y % 100 ≠ 0) then 29 else 28)
  else if m = 4 ∨ m = 6 ∨ m = 9 ∨ m = 11 then 30
  else 31

/-- The text `s` is a valid date in the layout DD-MM-YYYY, of year `y`: two digits, a
dash, two digits, a dash, four digits and nothing else, with a month from 1 to 12 and a
day that exists in that month of that year. -/
def IsDateText (s : String) (y : Nat) : Prop :=
  ∃ d1 d2 m1 m2 y1 y2 y3 y4 : Char,
    s = String.mk [d1, d2, '-', m1, m2, '-', y1, y2, y3, y4] ∧
    (isDigit d1 = true ∧ isDigit d2 = true) ∧
    (isDigit m1 = true ∧ isDigit m2 = true) ∧
    (isDigit y1 = true ∧ isDigit y2 = true ∧ isDigit y3 = true ∧ isDigit y4 = true) ∧
    y = 1000 * digitVal y1 + 100 * digitVal y2 + 10 * digitVal y3 + digitVal y4 ∧
    (1 ≤ 10 * digitVal m1 + digitVal m2 ∧ 10 * digitVal m1 + digitVal m2 ≤ 12) ∧
    1 ≤ 10 * digitVal d1 + digitVal d2 ∧
    10 * digitVal d1 + digitVal d2 ≤ calendarDays (10 * digitVal m1 + digitVal m2) y

/-- Two decodings of one relation set: the same entries in the same index order, each
map with the same content, enumerated by `range` in possibly different orders. -/
def SameMaps (r₁ r₂ : Relation) : Prop :=
  List.Forall₂
    (fun e₁ e₂ : RelationEntry => e₁.Id = e₂.Id ∧ e₁.DatesLocations.Perm e₂.DatesLocations)
    r₁.Index r₂.Index

/-! # Theorems -/

/-! ## The stable sort -/

theorem insertStable_perm {α : Type} (less : α → α → Bool) (x : α) (l : List α) :
    (insertStable less x l).Perm (x :: l) := by
  induction l with
  | nil => exact List.Perm.refl _
  | cons y ys ih =>
    unfold insertStable
    split
    · exact ((List.Perm.cons y ih).trans (List.Perm.swap x y ys))
    · exact List.Perm.refl _

theorem SliceStable_perm {α : Type} (less : α → α → Bool) (l : List α) :
    (SliceStable less l).Perm l := by
  induction l with
  | nil => exact List.Perm.refl _
  | cons x xs ih =>
    exact (insertStable_perm less x (SliceStable less xs)).trans (List.Perm.cons x ih)

theorem insertStable_sorted {α κ : Type} [LinearOrder κ] (less : α → α → Bool) (key : α → κ)
    (hless : ∀ a b, less a b = true ↔ key a < key b) (x : α) (l : List α)
    (hl : l.Pairwise (fun a b => key a ≤ key b)) :
    (insertStable less x l).Pairwise (fun a b => key a ≤ key b) := by
  induction l with
  | nil => simp [insertStable]
  | cons y ys ih =>
    have hy := List.pairwise_cons.mp hl
    unfold insertStable
    by_cases h : key y < key x
    · rw [if_pos ((hless y x).mpr h)]
      refine List.pairwise_cons.mpr ⟨?_, ih hy.2⟩
      intro b hb
      rcases List.mem_cons.mp ((insertStable_perm less x ys).subset hb) with rfl | hb
      · exact le_of_lt h
      · exact hy.1 b hb
    · rw [if_neg (fun hc => h ((hless y x).mp hc))]
      have hxy : key x ≤ key y := not_lt.mp h
      refine List.pairwise_cons.mpr ⟨?_, hl⟩
      intro b hb
      rcases List.mem_cons.mp hb with rfl | hb
      · exact hxy
      · exact le_trans hxy (hy.1 b hb)

theorem SliceStable_sorted {α κ : Type} [LinearOrder κ] (less : α → α → Bool) (key : α → κ)
    (hless : ∀ a b, less a b = true ↔ key a < key b) (l : List α) :
    (SliceStable less l).Pairwise (fun a b => key a ≤ key b) := by
  induction l with
  | nil => simp [SliceStable]
  | cons x xs ih => exact insertStable_sorted less key hless x _ ih

theorem insertStable_filter {α κ : Type} [LinearOrder κ] (less : α → α → Bool) (key : α → κ)
    (hless : ∀ a b, less a b = true ↔ key a < key b) (k : κ) (p : α → Bool)
    (hp : ∀ a, p a = true ↔ key a = k) (x : α) (l : List α) :
    (insertStable less x l).filter p = (x :: l).filter p := by
  induction l with
  | nil => rfl
  | cons y ys ih =>
    unfold insertStable
    by_cases h : key y < key x
    · rw [if_pos ((hless y x).mpr h)]
      by_cases hx : p x = true
      · have hyk : ¬ p y = true := fun e =>
          (ne_of_lt h) (((hp y).mp e).trans ((hp x).mp hx).symm)
        simp only [List.filter_cons, hx, hyk, if_true] at ih ⊢
        simpa using ih
      · simp only [List.filter_cons, hx] at ih ⊢
        simp only [ih]
        simp
    · rw [if_neg (fun hc => h ((hless y x).mp hc))]

theorem SliceStable_filter {α κ : Type} [LinearOrder κ] (less : α → α → Bool) (key : α → κ)
    (hless : ∀ a b, less a b = true ↔ key a < key b) (k : κ) (p : α → Bool)
    (hp : ∀ a, p a = true ↔ key a = k) (l : List α) :
    (SliceStable less l).filter p = l.filter p := by
  induction l with
  | nil => rfl
  | cons x xs ih =>
    show (insertStable less x (SliceStable less xs)).filter _ = _
    rw [insertStable_filter less key hless k p hp]
    simp only [List.filter_cons, ih]

theorem SliceStable_of_sorted {α κ : Type} [LinearOrder κ] (less : α → α → Bool) (key : α → κ)
    (hless : ∀ a b, less a b = true ↔ key a < key b) (l : List α)
    (hl : l.Pairwise (fun a b => key a ≤ key b)) : SliceStable less l = l := by
  induction l with
  | nil => rfl
  | cons x xs ih =>
    have hx := List.pairwise_cons.mp hl
    show insertStable less x (SliceStable less xs) = x :: xs
    rw [ih hx.2]
    cases xs with
    | nil => rfl
    | cons y ys =>
      unfold insertStable
      rw [if_neg]
      intro hc
      exact not_lt.mpr (hx.1 y (List.mem_cons_self _ _)) ((hless y x).mp hc)

/-! ## Go's string order -/

theorem lessRunes_iff (s t : List Char) : lessRunes s t = true ↔ s < t := by
  induction s generalizing t with
  | nil =>
    cases t with
    | nil => simp [lessRunes]
    | cons b bs => simpa [lessRunes] using List.nil_lt_cons b bs
  | cons a as ih =>
    cases t with
    | nil =>
      simp only [lessRunes, Bool.false_eq_true, false_iff]
      exact List.Lex.not_nil_right _ _
    | cons b bs =>
      unfold lessRunes
      by_cases hab : a < b
      · rw [if_pos hab]
        exact iff_of_true rfl (List.Lex.rel hab)
      · rw [if_neg hab]
        by_cases hEq : a = b
        · subst hEq
          rw [if_pos rfl, ih]
          exact (List.Lex.cons_iff (r := (· < ·))).symm
        · rw [if_neg hEq]
          refine iff_of_false (by simp) ?_
          intro h
          cases h with
          | cons h => exact hEq rfl
          | rel h => exact hab h

theorem stringLess_iff (s t : String) : stringLess s t = true ↔ s < t := by
  rw [String.lt_iff_toList_lt]
  exact lessRunes_iff s.data t.data

/-! ## Loops that append to a result slice -/

theorem foldl_append_if {α : Type} (c : α → Prop) [DecidablePred c] (l init : List α) :
    l.foldl (fun acc a => if c a then acc ++ [a] else acc) init =
      init ++ l.filter (fun a => decide (c a)) := by
  induction l generalizing init with
  | nil => simp
  | cons x xs ih =>
    rw [List.foldl_cons, ih]
    by_cases hx : c x
    · simp [hx]
    · simp [hx]

theorem foldl_append_flatMap {α : Type} (f : α → List α) (l init : List α) :
    l.foldl (fun acc a => acc ++ f a) init = init ++ l.flatMap f := by
  induction l generalizing init with
  | nil => simp
  | cons x xs ih => rw [List.foldl_cons, ih]; simp

theorem containsRunes_nil (s : List Char) : containsRunes s [] = true := by
  cases s <;> simp [containsRunes, startsWith]

theorem memberLoop_eq_any (lowerRune : Char → Char) (query : String) (members : List String) :
    memberLoop lowerRune query members =
      members.any (fun m => Contains (ToLower lowerRune m) (ToLower lowerRune query)) := by
  induction members with
  | nil => rfl
  | cons m rest ih =>
    unfold memberLoop
    by_cases h : Contains (ToLower lowerRune m) (ToLower lowerRune query) = true
    · simp [h]
    · simp [h, ih]

theorem memberLoop_empty (lowerRune : Char → Char) (members : List String) :
    memberLoop lowerRune "" members = !members.isEmpty := by
  cases members with
  | nil => rfl
  | cons m rest =>
    unfold memberLoop
    have : Contains (ToLower lowerRune m) (ToLower lowerRune "") = true :=
      containsRunes_nil _
    simp [this]

/-- Stage 1 is a filter: an artist is kept when the non-empty search string occurs in
its name, or the search string (empty or not) occurs in one of its member names. -/
theorem filteredArtists_eq_filter (lowerRune : Char → Char) (searchQuery : String)
    (artists : List Artiste) :
    filteredArtists lowerRune searchQuery artists =
      artists.filter (fun artist =>
        (decide (searchQuery ≠ "") &&
          Contains (ToLower lowerRune artist.Name) (ToLower lowerRune searchQuery)) ||
        memberLoop lowerRune searchQuery artist.Members) := by
  unfold filteredArtists
  have hstep : (fun (acc : List Artiste) (artist : Artiste) =>
      if searchQuery ≠ "" ∧
          Contains (ToLower lowerRune artist.Name) (ToLower lowerRune searchQuery) = true then
        acc ++ [artist]
      else if memberLoop lowerRune searchQuery artist.Members = true then acc ++ [artist]
      else acc) =
      (fun acc artist =>
        if (searchQuery ≠ "" ∧
            Contains (ToLower lowerRune artist.Name) (ToLower lowerRune searchQuery) = true) ∨
          memberLoop lowerRune searchQuery artist.Members = true then acc ++ [artist]
        else acc) := by
    funext acc artist
    by_cases h1 : searchQuery ≠ "" ∧
        Contains (ToLower lowerRune artist.Name) (ToLower lowerRune searchQuery) = true
    · simp [h1]
    · by_cases h2 : memberLoop lowerRune searchQuery artist.Members = true
      · simp [h1, h2]
      · simp [h1, h2]
  rw [hstep, foldl_append_if]
  simp only [List.nil_append]
  apply List.filter_congr
  intro a _
  simp [Bool.decide_or, Bool.decide_and]

theorem artistsWithMember_eq (lowerRune : Char → Char) (memberQuery : String)
    (filtered : List Artiste) :
    artistsWithMember lowerRune memberQuery filtered =
      if memberQuery ≠ "" then
        filtered.filter (fun artist => memberLoop lowerRune memberQuery artist.Members)
      else filtered := by
  unfold artistsWithMember
  split
  · rw [foldl_append_if]; simp
  · rfl

theorem filteredByDate_eq_filter (minYear maxYear : Int) (filtered : List Artiste) :
    filteredByDate minYear maxYear filtered =
      filtered.filter (fun artist =>
        decide (minYear ≤ artist.CreationDate ∧ artist.CreationDate ≤ maxYear)) := by
  unfold filteredByDate
  rw [foldl_append_if]
  simp

theorem filteredByCountry_eq (selectedCountry : String) (relations : Relation)
    (filtered : List Artiste) :
    filteredByCountry selectedCountry relations filtered =
      if selectedCountry ≠ "" then
        filtered.filter (fun artist => relationLoop selectedCountry artist.Name relations.Index)
      else filtered := by
  unfold filteredByCountry
  split
  · rw [foldl_append_if]; simp
  · rfl

/-- The number of entries of the selection that parse to the artist's member count. -/
theorem numMembers_inner (artist : Artiste) (numMembersFilters : List String)
    (acc : List Artiste) :
    numMembersFilters.foldl (fun acc filter =>
        match Atoi filter with
        | none => acc
        | some numMembers =>
          if (artist.Members.length : Int) = numMembers then acc ++ [artist] else acc) acc =
      acc ++ List.replicate
        (numMembersFilters.countP
          (fun filter => decide (Atoi filter = some (artist.Members.length : Int)))) artist := by
  induction numMembersFilters generalizing acc with
  | nil => simp
  | cons f fs ih =>
    rw [List.foldl_cons, ih]
    cases hA : Atoi f with
    | none => simp [List.countP_cons, hA]
    | some n =>
      by_cases hn : (artist.Members.length : Int) = n
      · subst hn
        simp [List.countP_cons, hA, List.replicate_succ]
      · have hn2 : ¬ n = (artist.Members.length : Int) := fun e => hn e.symm
        simp [List.countP_cons, hA, hn, hn2]

theorem filteredByNumMembers_eq (numMembersFilters : List String) (filtered : List Artiste) :
    filteredByNumMembers numMembersFilters filtered =
      if numMembersFilters.length > 0 then
        filtered.flatMap (fun artist =>
          List.replicate
            (numMembersFilters.countP
              (fun filter => decide (Atoi filter = some (artist.Members.length : Int)))) artist)
      else filtered := by
  unfold filteredByNumMembers
  split
  · have h := foldl_append_flatMap (fun (artist : Artiste) =>
        List.replicate
          (numMembersFilters.countP
            (fun filter => decide (Atoi filter = some (artist.Members.length : Int)))) artist)
        filtered []
    simp only [List.nil_append] at h
    rw [← h]
    congr 1
    funext acc artist
    exact numMembers_inner artist numMembersFilters acc
  · rfl

/-! ## Stage 1: name / member search -/

/-- C1 (as stated, refuted): the request without parameters, whose default year bounds
0 and 9999 contain the year 1980, drops the artist without members already in stage 1,
so the pipeline output differs from its input. -/
theorem filterPipeline_drops_memberless :
    (emptyQuery.searchQuery = "" ∧ emptyQuery.memberSearch = "" ∧ emptyQuery.country = "" ∧
      emptyQuery.numMembers = [] ∧
      yearBound emptyQuery.minYear 0 ≤ memberless.CreationDate ∧
      memberless.CreationDate ≤ yearBound emptyQuery.maxYear 9999) ∧
    filteredArtists asciiLower "" [memberless] = [] ∧
    filterPipeline asciiLower emptyQuery relationByNameKey [memberless] ≠ [memberless] := by
  decide

/-- C1 (amended): with empty searchQuery, memberSearch and country, no numMembers value
and year bounds containing every creation year, stage 1 and the whole filter pipeline
return the artists that have at least one member, each once and in input order; the
output equals the input when every artist has at least one member. -/
theorem filterPipeline_empty_query (lowerRune : Char → Char) (q : Query)
    (relations : Relation) (artists : List Artiste)
    (hs : q.searchQuery = "") (hm : q.memberSearch = "") (hc : q.country = "")
    (hn : q.numMembers = [])
    (hy : ∀ a ∈ artists,
      yearBound q.minYear 0 ≤ a.CreationDate ∧ a.CreationDate ≤ yearBound q.maxYear 9999) :
    filteredArtists lowerRune q.searchQuery artists =
      artists.filter (fun a => !a.Members.isEmpty) ∧
    filterPipeline lowerRune q relations artists =
      artists.filter (fun a => !a.Members.isEmpty) ∧
    ((∀ a ∈ artists, a.Members ≠ []) → filterPipeline lowerRune q relations artists = artists) := by
  have h1 : filteredArtists lowerRune q.searchQuery artists =
      artists.filter (fun a => !a.Members.isEmpty) := by
    rw [hs, filteredArtists_eq_filter]
    apply List.filter_congr
    intro a _
    simp [memberLoop_empty]
  have h2 : filterPipeline lowerRune q relations artists =
      artists.filter (fun a => !a.Members.isEmpty) := by
    unfold filterPipeline
    simp only [h1, artistsWithMember_eq, hm, filteredByNumMembers_eq, hn, filteredByCountry_eq,
      hc, filteredByDate_eq_filter]
    simp only [ne_eq, not_true_eq_false, if_false, List.length_nil, gt_iff_lt, lt_self_iff_false]
    rw [List.filter_eq_self]
    intro a ha
    have := hy a (List.mem_filter.mp ha).1
    simpa using this
  refine ⟨h1, h2, ?_⟩
  intro hall
  rw [h2, List.filter_eq_self]
  intro a ha
  have := hall a ha
  cases hmem : a.Members with
  | nil => exact absurd hmem this
  | cons m ms => rfl

theorem filterPipeline_empty_query_witness :
    (emptyQuery.searchQuery = "" ∧ emptyQuery.memberSearch = "" ∧ emptyQuery.country = "" ∧
      emptyQuery.numMembers = []) ∧
    (filteredArtists asciiLower emptyQuery.searchQuery [queen, memberless, artist1965] =
        [queen, memberless, artist1965].filter (fun a => !a.Members.isEmpty) ∧
      filterPipeline asciiLower emptyQuery relationByNameKey [queen, memberless, artist1965] =
        [queen, memberless, artist1965].filter (fun a => !a.Members.isEmpty) ∧
      ((∀ a ∈ [queen, memberless, artist1965], a.Members ≠ []) →
        filterPipeline asciiLower emptyQuery relationByNameKey [queen, memberless, artist1965] =
          [queen, memberless, artist1965])) :=
  ⟨⟨rfl, rfl, rfl, rfl⟩,
    filterPipeline_empty_query asciiLower emptyQuery relationByNameKey
      [queen, memberless, artist1965] rfl rfl rfl rfl (by decide)⟩

/-- C2: for a non-empty search string stage 1 is exactly the filter of the input, in
input order, by "the lower-cased name contains the lower-cased search string or some
member's lower-cased name does"; in particular it is a sublist of the input, so no
occurrence of an artist is output twice. -/
theorem filteredArtists_search (lowerRune : Char → Char) (q : String)
    (artists : List Artiste) (hq : q ≠ "") :
    filteredArtists lowerRune q artists = artists.filter (matchesSearch lowerRune q) ∧
    (filteredArtists lowerRune q artists).Sublist artists := by
  have h : filteredArtists lowerRune q artists = artists.filter (matchesSearch lowerRune q) := by
    rw [filteredArtists_eq_filter]
    apply List.filter_congr
    intro a _
    simp [matchesSearch, memberLoop_eq_any, hq]
  exact ⟨h, h ▸ List.filter_sublist _⟩

theorem filteredArtists_search_witness :
    ("que" : String) ≠ "" ∧ filteredArtists asciiLower "que" [queen] = [queen] :=
  ⟨by decide, (filteredArtists_search asciiLower "que" [queen] (by decide)).1.trans (by decide)⟩

/-! ## Stage 3: member-count filter -/

theorem mem_filteredByNumMembers (numMembersFilters : List String) (filtered : List Artiste)
    (hne : numMembersFilters ≠ []) (A : Artiste) :
    A ∈ filteredByNumMembers numMembersFilters filtered ↔
      A ∈ filtered ∧ ∃ f ∈ numMembersFilters, Atoi f = some (A.Members.length : Int) := by
  have hlen : numMembersFilters.length > 0 := List.length_pos.mpr hne
  rw [filteredByNumMembers_eq, if_pos hlen, List.mem_flatMap]
  constructor
  · rintro ⟨a, ha, hA⟩
    obtain ⟨hcount, rfl⟩ := List.mem_replicate.mp hA
    have hpos := Nat.pos_of_ne_zero hcount
    obtain ⟨f, hf, hfA⟩ := List.countP_pos_iff.mp hpos
    exact ⟨ha, f, hf, by simpa using hfA⟩
  · rintro ⟨hA, f, hf, hfA⟩
    refine ⟨A, hA, List.mem_replicate.mpr ⟨?_, rfl⟩⟩
    exact Nat.pos_iff_ne_zero.mp (List.countP_pos_iff.mpr ⟨f, hf, by simpa using hfA⟩)

theorem handleRequest_subset_numMembers (lowerRune : Char → Char) (q : Query)
    (relations : Relation) (artists : List Artiste) (A : Artiste)
    (h : A ∈ handleRequest lowerRune q relations artists) :
    A ∈ filteredByNumMembers q.numMembers
      (artistsWithMember lowerRune q.memberSearch
        (filteredArtists lowerRune q.searchQuery artists)) := by
  unfold handleRequest sortStage at h
  have h1 := (SliceStable_perm _ _).subset h
  unfold filterPipeline at h1
  simp only [filteredByCountry_eq, filteredByDate_eq_filter] at h1
  split at h1
  · exact (List.mem_filter.mp (List.mem_filter.mp h1).1).1
  · exact (List.mem_filter.mp h1).1

/-- C3 (the code at the failing inputs): a selection that names the member count of
Queen twice, as "2","2" or as "2","+2", makes stage 3 output Queen twice, which is not
the filter of the input by "the member count equals a selected value". -/
theorem filteredByNumMembers_repeats :
    filteredByNumMembers ["2", "2"] [queen] = [queen, queen] ∧
    filteredByNumMembers ["2", "+2"] [queen] = [queen, queen] ∧
    [queen].filter (matchesNumMembers ["2", "2"]) = [queen] ∧
    [queen].filter (matchesNumMembers ["2", "+2"]) = [queen] := by
  decide

/-- C4: when the numMembers selection is not empty and no selected value parses to the
member count of artist A, then A does not occur in the output of stage 3, whatever its
input, and so not in the final artist list. -/
theorem numMembers_excludes (lowerRune : Char → Char) (q : Query) (relations : Relation)
    (artists : List Artiste) (A : Artiste) (hne : q.numMembers ≠ [])
    (hA : ∀ f ∈ q.numMembers, Atoi f ≠ some (A.Members.length : Int)) :
    (∀ filtered : List Artiste, A ∉ filteredByNumMembers q.numMembers filtered) ∧
    A ∉ handleRequest lowerRune q relations artists := by
  have h3 : ∀ filtered : List Artiste, A ∉ filteredByNumMembers q.numMembers filtered := by
    intro filtered hmem
    obtain ⟨_, f, hf, hfA⟩ := (mem_filteredByNumMembers _ _ hne A).mp hmem
    exact hA f hf hfA
  exact ⟨h3, fun hmem => h3 _ (handleRequest_subset_numMembers _ _ _ _ _ hmem)⟩

theorem numMembers_excludes_witness :
    ({ emptyQuery with numMembers := ["3"] } : Query).numMembers ≠ [] ∧
    (∀ f ∈ ({ emptyQuery with numMembers := ["3"] } : Query).numMembers,
      Atoi f ≠ some (queen.Members.length : Int)) ∧
    ((∀ filtered : List Artiste,
        queen ∉ filteredByNumMembers ({ emptyQuery with numMembers := ["3"] } : Query).numMembers
          filtered) ∧
      queen ∉ handleRequest asciiLower { emptyQuery with numMembers := ["3"] }
        relationByNameKey [queen]) :=
  ⟨by decide, by decide,
    numMembers_excludes asciiLower { emptyQuery with numMembers := ["3"] } relationByNameKey
      [queen] queen (by decide) (by decide)⟩

/-! ## Stage 5: country filter -/

theorem splitRunes_ne_nil (sep : Char) (s : List Char) : splitRunes sep s ≠ [] := by
  cases s with
  | nil => simp [splitRunes]
  | cons c s =>
    unfold splitRunes
    split
    · simp
    · split <;> simp

theorem Split_length_pos (s : String) (sep : Char) : (Split s sep).length > 0 := by
  unfold Split
  rw [List.length_map]
  exact List.length_pos.mpr (splitRunes_ne_nil sep s.data)

theorem locationLoop_iff (selectedCountry : String) (locations : List String) :
    locationLoop selectedCountry locations = true ↔
      ∃ location ∈ locations, lastPartTrimmed location = selectedCountry := by
  induction locations with
  | nil => simp [locationLoop]
  | cons l ls ih =>
    unfold locationLoop
    dsimp only
    have hpos := Split_length_pos l ','
    by_cases h : TrimSpace ((Split l ',').getLastD "") = selectedCountry
    · rw [if_pos ⟨hpos, h⟩]
      exact iff_of_true rfl ⟨l, List.mem_cons_self _ _, h⟩
    · rw [if_neg (fun hc => h hc.2), ih]
      constructor
      · rintro ⟨loc, hloc, he⟩
        exact ⟨loc, List.mem_cons_of_mem _ hloc, he⟩
      · rintro ⟨loc, hloc, he⟩
        rcases List.mem_cons.mp hloc with rfl | hloc
        · exact absurd he h
        · exact ⟨loc, hloc, he⟩

theorem relationLoop_iff (selectedCountry artistName : String) (index : List RelationEntry) :
    relationLoop selectedCountry artistName index = true ↔
      ∃ relation ∈ index, ∃ locations,
        mapGet relation.DatesLocations artistName = some locations ∧
        ∃ location ∈ locations, lastPartTrimmed location = selectedCountry := by
  induction index with
  | nil => simp [relationLoop]
  | cons r rs ih =>
    unfold relationLoop
    cases hget : mapGet r.DatesLocations artistName with
    | none => simp [hget, ih]
    | some locations =>
      by_cases hl : locationLoop selectedCountry locations = true
      · simp only [hl, if_true, true_iff]
        exact ⟨r, List.mem_cons_self _ _, locations, hget, (locationLoop_iff _ _).mp hl⟩
      · simp only [hl, if_false, Bool.false_eq_true, ih]
        constructor
        · rintro ⟨r', hr', locs, hg, hloc⟩
          exact ⟨r', List.mem_cons_of_mem _ hr', locs, hg, hloc⟩
        · rintro ⟨r', hr', locs, hg, hloc⟩
          rcases List.mem_cons.mp hr' with rfl | hr'
          · rw [hget] at hg
            cases hg
            exact absurd ((locationLoop_iff _ _).mpr hloc) hl
          · exact ⟨r', hr', locs, hg, hloc⟩

theorem sortLess_creationDate_asc (relations : Relation) (a b : Artiste) :
    sortLess "creationDate" "asc" relations a b = true ↔ a.CreationDate < b.CreationDate := by
  simp [sortLess]

theorem sortLess_creationDate_desc (relations : Relation) (a b : Artiste) :
    sortLess "creationDate" "desc" relations a b = true ↔
      OrderDual.toDual a.CreationDate < OrderDual.toDual b.CreationDate := by
  simp [sortLess]

theorem sortLess_byName (sortBy orderBy : String) (relations : Relation)
    (h : (sortBy ≠ "creationDate" ∧ sortBy ≠ "firstAlbum" ∧ sortBy ≠ "country") ∨
      (orderBy ≠ "asc" ∧ orderBy ≠ "desc")) (a b : Artiste) :
    sortLess sortBy orderBy relations a b = true ↔ a.Name < b.Name := by
  rw [← stringLess_iff]
  unfold sortLess
  rcases h with ⟨h1, h2, h3⟩ | ⟨h1, h2⟩
  · simp [h1, h2, h3]
  · simp [h1, h2]

/-- The comparison closure always compares one key of the two artists, in one linear
order: this is what makes the stable sort well defined. -/
theorem sortLess_keyed (sortBy orderBy : String) (relations : Relation) :
    ∃ (κ : Type) (_ : LinearOrder κ) (key : Artiste → κ),
      ∀ a b, sortLess sortBy orderBy relations a b = true ↔ key a < key b := by
  by_cases hA : orderBy = "asc"
  · subst hA
    by_cases h1 : sortBy = "creationDate"
    · subst h1
      exact ⟨Int, inferInstance, fun a => a.CreationDate, fun a b => by simp [sortLess]⟩
    · by_cases h2 : sortBy = "firstAlbum"
      · subst h2
        exact ⟨Int, inferInstance, fun a => parseYear a.FirstAlbum,
          fun a b => by simp [sortLess]⟩
      · by_cases h3 : sortBy = "country"
        · subst h3
          exact ⟨String, inferInstance, fun a => getCountryForArtist a.Name relations,
            fun a b => by simp [sortLess, stringLess_iff]⟩
        · exact ⟨String, inferInstance, fun a => a.Name,
            sortLess_byName _ _ _ (Or.inl ⟨h1, h2, h3⟩)⟩
  · by_cases hD : orderBy = "desc"
    · subst hD
      by_cases h1 : sortBy = "creationDate"
      · subst h1
        exact ⟨Intᵒᵈ, inferInstance, fun a => OrderDual.toDual a.CreationDate,
          fun a b => by simp [sortLess]⟩
      · by_cases h2 : sortBy = "firstAlbum"
        · subst h2
          exact ⟨Intᵒᵈ, inferInstance, fun a => OrderDual.toDual (parseYear a.FirstAlbum),
            fun a b => by simp [sortLess]⟩
        · by_cases h3 : sortBy = "country"
          · subst h3
            exact ⟨Stringᵒᵈ, inferInstance,
              fun a => OrderDual.toDual (getCountryForArtist a.Name relations),
              fun a b => by simp [sortLess, stringLess_iff]⟩
          · exact ⟨String, inferInstance, fun a => a.Name,
              sortLess_byName _ _ _ (Or.inl ⟨h1, h2, h3⟩)⟩
    · exact ⟨String, inferInstance, fun a => a.Name, sortLess_byName _ _ _ (Or.inr ⟨hA, hD⟩)⟩

/-- C6: with sortBy=creationDate the sort stage returns a permutation of its input
ordered by CreationDate, non-decreasing for orderBy=asc and non-increasing for
orderBy=desc, and the artists of any one creation year keep their relative order; with
years 1970 and 1965 and orderBy=desc the 1970 artist comes first. -/
theorem sortStage_creationDate (relations : Relation) (artists : List Artiste) :
    ((sortStage "creationDate" "asc" relations artists).Perm artists ∧
      (sortStage "creationDate" "asc" relations artists).Pairwise
        (fun a b => a.CreationDate ≤ b.CreationDate) ∧
      ∀ year : Int,
        (sortStage "creationDate" "asc" relations artists).filter
            (fun a => decide (a.CreationDate = year)) =
          artists.filter (fun a => decide (a.CreationDate = year))) ∧
    ((sortStage "creationDate" "desc" relations artists).Perm artists ∧
      (sortStage "creationDate" "desc" relations artists).Pairwise
        (fun a b => b.CreationDate ≤ a.CreationDate) ∧
      ∀ year : Int,
        (sortStage "creationDate" "desc" relations artists).filter
            (fun a => decide (a.CreationDate = year)) =
          artists.filter (fun a => decide (a.CreationDate = year))) ∧
    sortStage "creationDate" "desc" relations [artist1965, queen] = [queen, artist1965] ∧
    sortStage "creationDate" "desc" relations [queen, artist1965] = [queen, artist1965] := by
  refine ⟨⟨SliceStable_perm _ _, ?_, ?_⟩, ⟨SliceStable_perm _ _, ?_, ?_⟩, ?_, ?_⟩
  · exact SliceStable_sorted _ (fun a => a.CreationDate)
      (sortLess_creationDate_asc relations) artists
  · intro year
    exact SliceStable_filter _ (fun a => a.CreationDate)
      (sortLess_creationDate_asc relations) year _ (fun a => by simp) artists
  · exact SliceStable_sorted _ (fun a => OrderDual.toDual a.CreationDate)
      (sortLess_creationDate_desc relations) artists
  · intro year
    exact SliceStable_filter _ (fun a => OrderDual.toDual a.CreationDate)
      (sortLess_creationDate_desc relations) (OrderDual.toDual year) _ (fun a => by simp) artists
  · simp [sortStage, SliceStable, insertStable, sortLess, artist1965, queen]
  · simp [sortStage, SliceStable, insertStable, sortLess, artist1965, queen]

/-- C7: when sortBy is none of creationDate, firstAlbum, country, or orderBy is neither
asc nor desc, the sort stage returns the permutation of its input in ascending
lexicographic order of Name, artists of equal name keeping their relative order. -/
theorem sortStage_byName (sortBy orderBy : String) (relations : Relation)
    (artists : List Artiste)
    (h : (sortBy ≠ "creationDate" ∧ sortBy ≠ "firstAlbum" ∧ sortBy ≠ "country") ∨
      (orderBy ≠ "asc" ∧ orderBy ≠ "desc")) :
    (sortStage sortBy orderBy relations artists).Perm artists ∧
    (sortStage sortBy orderBy relations artists).Pairwise (fun a b => a.Name ≤ b.Name) ∧
    ∀ name : String,
      (sortStage sortBy orderBy relations artists).filter (fun a => decide (a.Name = name)) =
        artists.filter (fun a => decide (a.Name = name)) :=
  ⟨SliceStable_perm _ _,
    SliceStable_sorted _ (fun a => a.Name) (sortLess_byName sortBy orderBy relations h) artists,
    fun name =>
      SliceStable_filter _ (fun a => a.Name) (sortLess_byName sortBy orderBy relations h)
        name _ (fun a => by simp) artists⟩

/-- C8: the sort stage is idempotent: sorting its own result again with the same
sortBy and orderBy gives the identical list. -/
theorem sortStage_idempotent (sortBy orderBy : String) (relations : Relation)
    (artists : List Artiste) :
    sortStage sortBy orderBy relations (sortStage sortBy orderBy relations artists) =
      sortStage sortBy orderBy relations artists := by
  obtain ⟨κ, inst, key, hkey⟩ := sortLess_keyed sortBy orderBy relations
  exact SliceStable_of_sorted _ key hkey _ (SliceStable_sorted _ key hkey artists)

theorem sortStage_byName_witness :
    ((("creationDate" : String) ≠ "creationDate" ∧ ("creationDate" : String) ≠ "firstAlbum" ∧
        ("creationDate" : String) ≠ "country") ∨
      (("up" : String) ≠ "asc" ∧ ("up" : String) ≠ "desc")) ∧
    ((sortStage "creationDate" "up" ⟨[]⟩ [artist1965, queen]).Perm [artist1965, queen] ∧
      (sortStage "creationDate" "up" ⟨[]⟩ [artist1965, queen]).Pairwise
        (fun a b => a.Name ≤ b.Name) ∧
      ∀ name : String,
        (sortStage "creationDate" "up" ⟨[]⟩ [artist1965, queen]).filter
            (fun a => decide (a.Name = name)) =
          [artist1965, queen].filter (fun a => decide (a.Name = name))) :=
  ⟨Or.inr ⟨by decide, by decide⟩,
    sortStage_byName "creationDate" "up" ⟨[]⟩ [artist1965, queen]
      (Or.inr ⟨by decide, by decide⟩)⟩

/-! ## parseYear -/

theorem daysIn_eq_calendarDays (m y : Nat) (h1 : 1 ≤ m) (h12 : m ≤ 12) :
    daysIn m (y : Int) = calendarDays m y := by
  have hleap : isLeap (y : Int) = true ↔ (y % 400 = 0 ∨ (y % 4 = 0 ∧ y % 100 ≠ 0)) := by
    simp only [isLeap, Bool.and_eq_true, Bool.or_eq_true, beq_iff_eq, bne_iff_ne, ne_eq]
    omega
  unfold daysIn calendarDays
  by_cases hl : isLeap (y : Int) = true
  · have hl2 := hleap.mp hl
    interval_cases m <;> simp [hl, hl2, daysBefore]
  · have hl2 : ¬ (y % 400 = 0 ∨ (y % 4 = 0 ∧ y % 100 ≠ 0)) := fun h => hl (hleap.mpr h)
    interval_cases m <;> simp [hl, hl2, daysBefore]

theorem getnum_fixed (v : List Char) (n : Nat) (r : List Char)
    (h : getnum v true = some (n, r)) :
    ∃ c0 c1, v = c0 :: c1 :: r ∧ isDigit c0 = true ∧ isDigit c1 = true ∧
      n = digitVal c0 * 10 + digitVal c1 := by
  match v, h with
  | [], h => simp [getnum] at h
  | [c0], h => simp [getnum] at h
  | c0 :: c1 :: rest, h =>
    unfold getnum at h
    by_cases h0 : isDigit c0 = true
    · by_cases h1 : isDigit c1 = true
      · simp only [h0, h1, if_true, Option.some.injEq, Prod.mk.injEq] at h
        exact ⟨c0, c1, by rw [h.2], h0, h1, h.1.symm⟩
      · simp [h0, h1] at h
    · simp [h0] at h

theorem skip_dash (v r : List Char) (h : skip v ['-'] = some r) : v = '-' :: r := by
  cases v with
  | nil => simp [skip] at h
  | cons c cs =>
    unfold skip at h
    by_cases hc : c = '-'
    · subst hc
      simp only [if_true] at h
      unfold skip at h
      simp only [Option.some.injEq] at h
      rw [h]
    · simp [hc] at h

theorem timeAtoi_digit (c : Char) (rest : List Char) (hc : isDigit c = true) :
    timeAtoi (c :: rest) = (parseDigits (c :: rest) 0).map (fun q => (q : Int)) := by
  have h1 : c ≠ '-' := by
    intro e; subst e; revert hc; decide
  have h2 : c ≠ '+' := by
    intro e; subst e; revert hc; decide
  unfold timeAtoi
  split
  · rename_i heq; exact absurd (List.cons.inj heq).1 h1
  · rename_i heq; exact absurd (List.cons.inj heq).1 h2
  · rfl

theorem parseDigits_four (a b c e : Char) (q : Nat)
    (h : parseDigits [a, b, c, e] 0 = some q) :
    (isDigit a = true ∧ isDigit b = true ∧ isDigit c = true ∧ isDigit e = true) ∧
      q = 1000 * digitVal a + 100 * digitVal b + 10 * digitVal c + digitVal e := by
  by_cases ha : isDigit a = true
  · by_cases hb : isDigit b = true
    · by_cases hc : isDigit c = true
      · by_cases he : isDigit e = true
        · simp only [parseDigits, ha, hb, hc, he, if_true, Option.some.injEq] at h
          exact ⟨⟨ha, hb, hc, he⟩, by omega⟩
        · simp [parseDigits, ha, hb, hc, he] at h
      · simp [parseDigits, ha, hb, hc] at h
    · simp [parseDigits, ha, hb] at h
  · simp [parseDigits, ha] at h

theorem timeParse_of_date (s : String) (y : Nat) (h : IsDateText s y) :
    ∃ m d, timeParse s.data = some ((y : Int), m, d) := by
  obtain ⟨d1, d2, m1, m2, y1, y2, y3, y4, rfl, ⟨hd1, hd2⟩, ⟨hm1, hm2⟩, ⟨hy1, hy2, hy3, hy4⟩,
    rfl, ⟨hmlo, hmhi⟩, hdlo, hdhi⟩ := h
  have hmonth : ¬ (digitVal m1 * 10 + digitVal m2 ≤ 0 ∨ 12 < digitVal m1 * 10 + digitVal m2) := by
    omega
  have hyear : parseDigits [y1, y2, y3, y4] 0 =
      some (1000 * digitVal y1 + 100 * digitVal y2 + 10 * digitVal y3 + digitVal y4) := by
    simp only [parseDigits, hy1, hy2, hy3, hy4, if_true, Option.some.injEq]
    omega
  have hdays := daysIn_eq_calendarDays (digitVal m1 * 10 + digitVal m2)
    (1000 * digitVal y1 + 100 * digitVal y2 + 10 * digitVal y3 + digitVal y4)
    (by omega) (by omega)
  have hday : ¬ (digitVal d1 * 10 + digitVal d2 < 1 ∨
      digitVal d1 * 10 + digitVal d2 >
        daysIn (digitVal m1 * 10 + digitVal m2)
          ((1000 * digitVal y1 + 100 * digitVal y2 + 10 * digitVal y3 + digitVal y4 : Nat) : Int)) := by
    rw [hdays]
    have e : 10 * digitVal m1 + digitVal m2 = digitVal m1 * 10 + digitVal m2 := by omega
    rw [e] at hdhi
    omega
  refine ⟨digitVal m1 * 10 + digitVal m2, digitVal d1 * 10 + digitVal d2, ?_⟩
  simp only [timeParse, getnum, skip, hd1, hd2, hm1, hm2, if_true, hmonth, if_false,
    List.length_cons, List.length_nil, isDigitAt, List.get?, hy1, List.take, List.drop,
    timeAtoi_digit y1 _ hy1, hyear, Option.map]
  have hfour : ¬ ((decide (0 + 1 + 1 + 1 + 1 < 4) || !true) = true) := by decide
  have hnone : ¬ ((0 : Nat) ≠ 0) := by decide
  rw [if_neg hfour]
  dsimp only [bind, Option.bind, pure]
  rw [if_neg hnone, if_neg hday]

theorem date_of_timeParse (s : String) (t : Int × Nat × Nat)
    (h : timeParse s.data = some t) : ∃ y : Nat, t.1 = (y : Int) ∧ IsDateText s y := by
  unfold timeParse at h
  cases h1 : getnum s.data true with
  | none => rw [h1] at h; cases h
  | some p1 =>
    obtain ⟨day, v1⟩ := p1
    obtain ⟨d1, d2, hv, hd1, hd2, hday⟩ := getnum_fixed _ _ _ h1
    rw [h1] at h
    dsimp only at h
    cases h2 : skip v1 ['-'] with
    | none => rw [h2] at h; cases h
    | some v2 =>
      have hv1 := skip_dash _ _ h2
      rw [h2] at h
      dsimp only at h
      cases h3 : getnum v2 true with
      | none => rw [h3] at h; cases h
      | some p3 =>
        obtain ⟨month, v3⟩ := p3
        obtain ⟨m1, m2, hv2, hm1, hm2, hmonth⟩ := getnum_fixed _ _ _ h3
        rw [h3] at h
        dsimp only at h
        by_cases hmr : month ≤ 0 ∨ 12 < month
        · rw [if_pos hmr] at h; cases h
        · rw [if_neg hmr] at h
          cases h4 : skip v3 ['-'] with
          | none => rw [h4] at h; cases h
          | some v4 =>
            have hv3 := skip_dash _ _ h4
            rw [h4] at h
            dsimp only at h
            by_cases hlen : (decide (v4.length < 4) || !isDigitAt v4 0) = true
            · rw [if_pos hlen] at h; cases h
            · rw [if_neg hlen] at h
              cases h5 : timeAtoi (v4.take 4) with
              | none => rw [h5] at h; cases h
              | some year =>
                rw [h5] at h
                dsimp only at h
                by_cases hrest : (v4.drop 4).length ≠ 0
                · rw [if_pos hrest] at h; cases h
                · rw [if_neg hrest] at h
                  by_cases hdr : day < 1 ∨ day > daysIn month year
                  · rw [if_pos hdr] at h; cases h
                  · rw [if_neg hdr] at h
                    have hlen4 : v4.length = 4 := by
                      have hge : ¬ v4.length < 4 := fun hlt => hlen (by simp [hlt])
                      have hz : (v4.drop 4).length = 0 := not_not.mp hrest
                      rw [List.length_drop] at hz
                      omega
                    have hdig : isDigitAt v4 0 = true := by
                      cases hd : isDigitAt v4 0 with
                      | true => rfl
                      | false => exact absurd (by simp [hd]) hlen
                    rcases v4 with _ | ⟨y1, _ | ⟨y2, _ | ⟨y3, _ | ⟨y4, _ | ⟨y5, r⟩⟩⟩⟩⟩ <;>
                      simp at hlen4
                    have hy1 : isDigit y1 = true := hdig
                    have h6 : timeAtoi [y1, y2, y3, y4] = some year := h5
                    rw [timeAtoi_digit y1 _ hy1] at h6
                    cases hq : parseDigits [y1, y2, y3, y4] 0 with
                    | none => rw [hq] at h6; cases h6
                    | some q =>
                      rw [hq] at h6
                      have hyq : year = (q : Int) := (Option.some.inj h6).symm
                      obtain ⟨hys, hqv⟩ := parseDigits_four _ _ _ _ _ hq
                      have ht : t.1 = (q : Int) := by
                        rw [← Option.some.inj h]
                        exact hyq
                      have hmlo : 1 ≤ month ∧ month ≤ 12 := by omega
                      have hdays := daysIn_eq_calendarDays month q hmlo.1 hmlo.2
                      rw [hyq, hdays] at hdr
                      have e : 10 * digitVal m1 + digitVal m2 = month := by omega
                      refine ⟨q, ht, d1, d2, m1, m2, y1, y2, y3, y4, ?_, ⟨hd1, hd2⟩, ⟨hm1, hm2⟩,
                        hys, hqv, ?_, ?_, ?_⟩
                      · show s = String.mk _
                        rw [← hv3, ← hv2, ← hv1, ← hv]
                      · rw [e]; exact hmlo
                      · omega
                      · rw [e]; omega

/-- C9: parseYear returns the year YYYY for every text that is a valid date in the
layout DD-MM-YYYY and 0 for every other text, the empty one included;
parseYear("") = 0, parseYear("not-a-date") = 0 and parseYear("04-07-1969") = 1969. -/
theorem parseYear_spec :
    (∀ (s : String) (y : Nat), IsDateText s y → parseYear s = (y : Int)) ∧
    (∀ s : String, (¬ ∃ y : Nat, IsDateText s y) → parseYear s = 0) ∧
    parseYear "" = 0 ∧ parseYear "not-a-date" = 0 ∧ parseYear "04-07-1969" = 1969 := by
  refine ⟨?_, ?_, by decide, by decide, by decide⟩
  · intro s y h
    obtain ⟨m, d, hp⟩ := timeParse_of_date s y h
    have hne : s ≠ "" := by
      obtain ⟨d1, d2, m1, m2, y1, y2, y3, y4, rfl, _⟩ := h
      intro hc
      have := congrArg String.data hc
      simp at this
    unfold parseYear
    rw [if_neg hne, hp]
  · intro s hno
    unfold parseYear
    split
    · rfl
    · cases hp : timeParse s.data with
      | none => rfl
      | some t =>
        obtain ⟨y, _, hy⟩ := date_of_timeParse s t hp
        exact absurd ⟨y, hy⟩ hno

/-! ## extractUniqueCountriesFromRelations -/

theorem mapSet_spec (m : List String) (key : String) (hm : m.Nodup) :
    (mapSet m key).Nodup ∧ ∀ c, c ∈ mapSet m key ↔ c ∈ m ∨ c = key := by
  unfold mapSet
  by_cases h : key ∈ m
  · rw [if_pos h]
    refine ⟨hm, fun c => ⟨Or.inl, ?_⟩⟩
    rintro (hc | rfl)
    · exact hc
    · exact h
  · rw [if_neg h]
    refine ⟨?_, fun c => by simp⟩
    rw [List.nodup_append]
    refine ⟨hm, List.nodup_singleton _, ?_⟩
    intro a ha hb
    rw [List.mem_singleton] at hb
    exact h (hb ▸ ha)

theorem countryMap_inner (kvs : List (String × List String)) (m : List String) (hm : m.Nodup) :
    (kvs.foldl (fun m kv =>
        let parts := Split kv.1 ','
        if parts.length > 0 then mapSet m (TrimSpace (parts.getLastD "")) else m) m).Nodup ∧
    ∀ c, c ∈ kvs.foldl (fun m kv =>
        let parts := Split kv.1 ','
        if parts.length > 0 then mapSet m (TrimSpace (parts.getLastD "")) else m) m ↔
      c ∈ m ∨ ∃ kv ∈ kvs, lastPartTrimmed kv.1 = c := by
  induction kvs generalizing m with
  | nil => exact ⟨hm, fun c => by simp⟩
  | cons kv rest ih =>
    rw [List.foldl_cons]
    dsimp only
    rw [if_pos (Split_length_pos kv.1 ',')]
    obtain ⟨hnd, hmem⟩ := mapSet_spec m (TrimSpace ((Split kv.1 ',').getLastD "")) hm
    obtain ⟨h1, h2⟩ := ih _ hnd
    refine ⟨h1, fun c => ?_⟩
    rw [h2 c, hmem c]
    constructor
    · rintro ((hc | hc) | ⟨kv', hkv', he⟩)
      · exact Or.inl hc
      · exact Or.inr ⟨kv, List.mem_cons_self _ _, hc.symm⟩
      · exact Or.inr ⟨kv', List.mem_cons_of_mem _ hkv', he⟩
    · rintro (hc | ⟨kv', hkv', he⟩)
      · exact Or.inl (Or.inl hc)
      · rcases List.mem_cons.mp hkv' with rfl | hkv'
        · exact Or.inl (Or.inr he.symm)
        · exact Or.inr ⟨kv', hkv', he⟩

theorem countryMap_outer (index : List RelationEntry) (m : List String) (hm : m.Nodup) :
    (index.foldl (fun m relation =>
        relation.DatesLocations.foldl (fun m kv =>
          let parts := Split kv.1 ','
          if parts.length > 0 then mapSet m (TrimSpace (parts.getLastD "")) else m) m) m).Nodup ∧
    ∀ c, c ∈ index.foldl (fun m relation =>
        relation.DatesLocations.foldl (fun m kv =>
          let parts := Split kv.1 ','
          if parts.length > 0 then mapSet m (TrimSpace (parts.getLastD "")) else m) m) m ↔
      c ∈ m ∨ ∃ relation ∈ index, ∃ kv ∈ relation.DatesLocations, lastPartTrimmed kv.1 = c := by
  induction index generalizing m with
  | nil => exact ⟨hm, fun c => by simp⟩
  | cons e rest ih =>
    rw [List.foldl_cons]
    obtain ⟨hnd, hmem⟩ := countryMap_inner e.DatesLocations m hm
    obtain ⟨h1, h2⟩ := ih _ hnd
    refine ⟨h1, fun c => ?_⟩
    rw [h2 c, hmem c]
    constructor
    · rintro ((hc | hc) | ⟨e', he', hk⟩)
      · exact Or.inl hc
      · exact Or.inr ⟨e, List.mem_cons_self _ _, hc⟩
      · exact Or.inr ⟨e', List.mem_cons_of_mem _ he', hk⟩
    · rintro (hc | ⟨e', he', hk⟩)
      · exact Or.inl (Or.inl hc)
      · rcases List.mem_cons.mp he' with rfl | he'
        · exact Or.inl (Or.inr hk)
        · exact Or.inr ⟨e', he', hk⟩

theorem countryMap_spec (relations : Relation) :
    (countryMap relations).Nodup ∧
    ∀ c, c ∈ countryMap relations ↔
      ∃ relation ∈ relations.Index, ∃ kv ∈ relation.DatesLocations,
        lastPartTrimmed kv.1 = c := by
  obtain ⟨h1, h2⟩ := countryMap_outer relations.Index [] List.nodup_nil
  refine ⟨h1, fun c => ?_⟩
  have h3 := h2 c
  simp only [List.not_mem_nil, false_or] at h3
  exact h3

theorem extract_sorted (rangeOrder : List String → List String)
    (hr : ∀ l, (rangeOrder l).Perm l) (relations : Relation) :
    (extractUniqueCountriesFromRelations rangeOrder relations).Pairwise (fun a b => a < b) ∧
    ∀ c, c ∈ extractUniqueCountriesFromRelations rangeOrder relations ↔
      ∃ relation ∈ relations.Index, ∃ kv ∈ relation.DatesLocations,
        lastPartTrimmed kv.1 = c := by
  obtain ⟨hnd, hmem⟩ := countryMap_spec relations
  have hperm : (extractUniqueCountriesFromRelations rangeOrder relations).Perm
      (countryMap relations) :=
    (SliceStable_perm stringLess _).trans (hr _)
  have hle : (extractUniqueCountriesFromRelations rangeOrder relations).Pairwise
      (fun a b => a ≤ b) :=
    SliceStable_sorted stringLess (fun s => s) stringLess_iff _
  refine ⟨?_, fun c => by rw [hperm.mem_iff, hmem c]⟩
  exact List.Sorted.lt_of_le hle (hperm.nodup_iff.mpr hnd)

theorem sameMaps_keys (l l' : List RelationEntry) (P : String → Prop)
    (h : List.Forall₂
      (fun e₁ e₂ : RelationEntry => e₁.Id = e₂.Id ∧ e₁.DatesLocations.Perm e₂.DatesLocations)
      l l') :
    (∃ relation ∈ l, ∃ kv ∈ relation.DatesLocations, P kv.1) ↔
      (∃ relation ∈ l', ∃ kv ∈ relation.DatesLocations, P kv.1) := by
  induction h with
  | nil => simp
  | @cons e e' t t' hee _ ih =>
    constructor
    · rintro ⟨r, hr, kv, hkv, hp⟩
      rcases List.mem_cons.mp hr with rfl | hr
      · exact ⟨e', List.mem_cons_self _ _, kv, hee.2.mem_iff.mp hkv, hp⟩
      · obtain ⟨r', hr', hk⟩ := ih.mp ⟨r, hr, kv, hkv, hp⟩
        exact ⟨r', List.mem_cons_of_mem _ hr', hk⟩
    · rintro ⟨r, hr, kv, hkv, hp⟩
      rcases List.mem_cons.mp hr with rfl | hr
      · exact ⟨e, List.mem_cons_self _ _, kv, hee.2.mem_iff.mpr hkv, hp⟩
      · obtain ⟨r', hr', hk⟩ := ih.mpr ⟨r, hr, kv, hkv, hp⟩
        exact ⟨r', List.mem_cons_of_mem _ hr', hk⟩

/-- C10: extractUniqueCountriesFromRelations returns a strictly increasing list (sorted,
no duplicates) whose elements are exactly the trimmed last comma-separated segments of
the keys of all datesLocations maps; a second run, with other enumeration orders of the
datesLocations maps and of countryMap, returns the same list. -/
theorem extractUniqueCountries_spec (rangeOrder : List String → List String)
    (relations : Relation) (hr : ∀ l, (rangeOrder l).Perm l) :
    (extractUniqueCountriesFromRelations rangeOrder relations).Pairwise (fun a b => a < b) ∧
    (∀ c, c ∈ extractUniqueCountriesFromRelations rangeOrder relations ↔
      ∃ relation ∈ relations.Index, ∃ kv ∈ relation.DatesLocations,
        lastPartTrimmed kv.1 = c) ∧
    (∀ (rangeOrder2 : List String → List String) (relations2 : Relation),
      (∀ l, (rangeOrder2 l).Perm l) → SameMaps relations relations2 →
      extractUniqueCountriesFromRelations rangeOrder2 relations2 =
        extractUniqueCountriesFromRelations rangeOrder relations) := by
  obtain ⟨hs, hm⟩ := extract_sorted rangeOrder hr relations
  refine ⟨hs, hm, ?_⟩
  intro rangeOrder2 relations2 hr2 hsame
  obtain ⟨hs2, hm2⟩ := extract_sorted rangeOrder2 hr2 relations2
  have hnd : (extractUniqueCountriesFromRelations rangeOrder relations).Nodup :=
    hs.imp (fun h => ne_of_lt h)
  have hnd2 : (extractUniqueCountriesFromRelations rangeOrder2 relations2).Nodup :=
    hs2.imp (fun h => ne_of_lt h)
  have hperm : (extractUniqueCountriesFromRelations rangeOrder2 relations2).Perm
      (extractUniqueCountriesFromRelations rangeOrder relations) := by
    rw [List.perm_ext_iff_of_nodup hnd2 hnd]
    intro c
    rw [hm c, hm2 c]
    exact (sameMaps_keys _ _ (fun k => lastPartTrimmed k = c) hsame).symm
  exact List.eq_of_perm_of_sorted hperm hs2 hs

theorem extractUniqueCountries_spec_witness :
    (∀ l : List String, (List.reverse l).Perm l) ∧
    ((extractUniqueCountriesFromRelations List.reverse relationTour).Pairwise
        (fun a b => a < b) ∧
      (∀ c, c ∈ extractUniqueCountriesFromRelations List.reverse relationTour ↔
        ∃ relation ∈ relationTour.Index, ∃ kv ∈ relation.DatesLocations,
          lastPartTrimmed kv.1 = c) ∧
      (∀ (rangeOrder2 : List String → List String) (relations2 : Relation),
        (∀ l, (rangeOrder2 l).Perm l) → SameMaps relationTour relations2 →
        extractUniqueCountriesFromRelations rangeOrder2 relations2 =
          extractUniqueCountriesFromRelations List.reverse relationTour)) ∧
    extractUniqueCountriesFromRelations List.reverse relationTour = ["France", "UK"] :=
  ⟨List.reverse_perm,
    extractUniqueCountries_spec List.reverse relationTour List.reverse_perm, by decide⟩

/-! ## The string primitives meet their library descriptions -/

theorem startsWith_iff (s p : List Char) : startsWith s p = true ↔ ∃ t, s = p ++ t := by
  induction s generalizing p with
  | nil =>
    cases p with
    | nil => simp [startsWith]
    | cons a as => simp [startsWith]
  | cons c cs ih =>
    cases p with
    | nil => simp [startsWith]
    | cons a as =>
      simp only [startsWith, Bool.and_eq_true, beq_iff_eq, ih, List.cons_append, List.cons.injEq]
      constructor
      · rintro ⟨rfl, t, rfl⟩
        exact ⟨t, rfl, rfl⟩
      · rintro ⟨t, rfl, rfl⟩
        exact ⟨rfl, t, rfl⟩

/-- The model of strings.Contains holds exactly when the substring occurs somewhere. -/
theorem containsRunes_iff (s substr : List Char) :
    containsRunes s substr = true ↔ ∃ before after, s = before ++ substr ++ after := by
  induction s with
  | nil =>
    simp only [containsRunes, startsWith_iff]
    constructor
    · rintro ⟨t, ht⟩
      exact ⟨[], t, by simpa using ht⟩
    · rintro ⟨before, after, h⟩
      have h2 := congrArg List.length h
      simp only [List.length_nil, List.length_append] at h2
      have hb : before = [] := List.length_eq_zero.mp (by omega)
      subst hb
      exact ⟨after, by simpa using h⟩
  | cons c cs ih =>
    simp only [containsRunes, Bool.or_eq_true, startsWith_iff, ih]
    constructor
    · rintro (⟨t, ht⟩ | ⟨before, after, h⟩)
      · exact ⟨[], t, by simpa using ht⟩
      · exact ⟨c :: before, after, by simp [h]⟩
    · rintro ⟨before, after, h⟩
      cases before with
      | nil => exact Or.inl ⟨after, by simpa using h⟩
      | cons b bs =>
        simp only [List.cons_append, List.cons.injEq] at h
        exact Or.inr ⟨bs, after, h.2⟩

theorem splitRunes_append (sep : Char) (before after : List Char) :
    splitRunes sep (before ++ sep :: after) = splitRunes sep before ++ splitRunes sep after := by
  induction before with
  | nil => simp [splitRunes]
  | cons c cs ih =>
    by_cases hc : c = sep
    · simp [splitRunes, hc, ← ih]
    · have hstep : ∀ s : List Char, splitRunes sep (c :: s) =
          match splitRunes sep s with
          | [] => [[c]]
          | p :: ps => (c :: p) :: ps := by
        intro s
        rw [splitRunes, if_neg hc]
      rw [List.cons_append, hstep, hstep, ih]
      cases hs : splitRunes sep cs with
      | nil => exact absurd hs (splitRunes_ne_nil sep cs)
      | cons p ps => rfl

theorem splitRunes_no_sep (sep : Char) (s : List Char) (h : sep ∉ s) :
    splitRunes sep s = [s] := by
  induction s with
  | nil => rfl
  | cons c cs ih =>
    have hc : ¬ c = sep := fun e => h (e ▸ List.mem_cons_self _ _)
    have hcs : sep ∉ cs := fun e => h (List.mem_cons_of_mem _ e)
    simp [splitRunes, hc, ih hcs]

/-- The last element of the model of strings.Split is the text after the last separator,
and the whole text when the separator does not occur. -/
theorem splitRunes_last (sep : Char) (after : List Char) (h : sep ∉ after) :
    (splitRunes sep after).getLastD [] = after ∧
    ∀ before, (splitRunes sep (before ++ sep :: after)).getLastD [] = after := by
  have h1 : splitRunes sep after = [after] := splitRunes_no_sep sep after h
  refine ⟨by rw [h1]; rfl, fun before => ?_⟩
  rw [splitRunes_append, h1, List.getLastD_eq_getLast?, List.getLast?_append]
  simp

/-- The country of a location string is the trimmed text after its last comma. -/
theorem lastPartTrimmed_spec (before after : List Char) (h : ',' ∉ after) :
    lastPartTrimmed (String.mk after) = TrimSpace (String.mk after) ∧
    lastPartTrimmed (String.mk (before ++ ',' :: after)) = TrimSpace (String.mk after) := by
  obtain ⟨h1, h2⟩ := splitRunes_last ',' after h
  have key : ∀ l : List (List Char), (l.map String.mk).getLastD "" = String.mk (l.getLastD []) := by
    intro l
    induction l using List.reverseRecOn with
    | nil => rfl
    | append_singleton xs x _ => simp [List.getLastD_eq_getLast?]
  constructor
  · show TrimSpace (((splitRunes ',' after).map String.mk).getLastD "") = _
    rw [key, h1]
  · show TrimSpace (((splitRunes ',' (before ++ ',' :: after)).map String.mk).getLastD "") = _
    rw [key, h2 before]

/-- The model of strconv.Atoi on some selections of the member-count filter. -/
theorem Atoi_examples :
    Atoi "2" = some 2 ∧ Atoi "+2" = some 2 ∧ Atoi "02" = some 2 ∧ Atoi "-3" = some (-3) ∧
    Atoi "" = none ∧ Atoi "+" = none ∧ Atoi "2 " = none ∧ Atoi "two" = none ∧
    Atoi "1_0" = none ∧ Atoi "9223372036854775807" = some 9223372036854775807 ∧
    Atoi "9223372036854775808" = none := by
  decide

/-! ## getCountryForArtist -/

theorem countryLoop_miss (artistName : String) (e : RelationEntry) (rest : List RelationEntry)
    (h : mapGet e.DatesLocations artistName = none ∨
      mapGet e.DatesLocations artistName = some []) :
    countryLoop artistName (e :: rest) = countryLoop artistName rest := by
  rw [countryLoop]
  rcases h with h | h <;> rw [h]

theorem countryLoop_skip (artistName : String) (before rest : List RelationEntry)
    (h : ∀ e ∈ before, mapGet e.DatesLocations artistName = none ∨
      mapGet e.DatesLocations artistName = some []) :
    countryLoop artistName (before ++ rest) = countryLoop artistName rest := by
  induction before with
  | nil => rfl
  | cons e es ih =>
    rw [List.cons_append, countryLoop_miss artistName e _ (h e (List.mem_cons_self _ _))]
    exact ih (fun e' he' => h e' (List.mem_cons_of_mem _ he'))

theorem countryLoop_hit (artistName : String) (e : RelationEntry) (rest : List RelationEntry)
    (location : String) (locations : List String)
    (h : mapGet e.DatesLocations artistName = some (location :: locations)) :
    countryLoop artistName (e :: rest) = lastPartTrimmed location := by
  rw [countryLoop, h]
  dsimp only
  rw [if_pos (Split_length_pos location ',')]
  rfl

/-- C11 (as stated, refuted): two relation sets with the same first entry, which has
the key "Queen" with an empty list, and different second entries give different
countries: the result is read from the later entry. -/
theorem getCountryForArtist_reads_later_entry :
    relationEmptyThenFrance.Index.head? = relationEmptyThenUK.Index.head? ∧
    (relationEmptyThenFrance.Index.head?.map
      (fun e => mapGet e.DatesLocations "Queen")) = some (some []) ∧
    getCountryForArtist "Queen" relationEmptyThenFrance = "France" ∧
    getCountryForArtist "Queen" relationEmptyThenUK = "UK" := by
  decide

/-- C11 (amended): getCountryForArtist consults only the first index entry whose
datesLocations map has the artist's name as a key with a non-empty list: without such
an entry it returns the empty string, and otherwise the trimmed last comma-separated
segment of the first string of that entry's list, whatever the later entries hold. -/
theorem getCountryForArtist_first_nonempty (artistName : String) (relations : Relation) :
    ((∀ e ∈ relations.Index, mapGet e.DatesLocations artistName = none ∨
        mapGet e.DatesLocations artistName = some []) →
      getCountryForArtist artistName relations = "") ∧
    (∀ (before : List RelationEntry) (e : RelationEntry) (after : List RelationEntry)
        (location : String) (locations : List String),
      relations.Index = before ++ e :: after →
      (∀ e' ∈ before, mapGet e'.DatesLocations artistName = none ∨
        mapGet e'.DatesLocations artistName = some []) →
      mapGet e.DatesLocations artistName = some (location :: locations) →
      getCountryForArtist artistName relations = lastPartTrimmed location) := by
  constructor
  · intro h
    have := countryLoop_skip artistName relations.Index [] h
    rw [List.append_nil] at this
    exact this
  · intro before e after location locations hidx hbefore he
    unfold getCountryForArtist
    rw [hidx, countryLoop_skip artistName before _ hbefore]
    exact countryLoop_hit artistName e after location locations he

theorem getCountryForArtist_first_nonempty_witness :
    getCountryForArtist "Queen" relationByLocationKey = "" ∧
    getCountryForArtist "Queen" relationEmptyThenFrance = lastPartTrimmed "Paris, France" ∧
    lastPartTrimmed "Paris, France" = "France" :=
  ⟨(getCountryForArtist_first_nonempty "Queen" relationByLocationKey).1 (by decide),
    (getCountryForArtist_first_nonempty "Queen" relationEmptyThenFrance).2
      [{ Id := 1, DatesLocations := [("Queen", [])] }]
      { Id := 2, DatesLocations := [("Queen", ["Paris, France"])] } [] "Paris, France" []
      rfl (by decide) rfl,
    by decide⟩

/-! ## Stage 4: creation-year range -/

theorem parseDigits_eq (digits : List Char) (n : Nat) :
    parseDigits digits n =
      if digits.all isDigit = true then some (n * 10 ^ digits.length + decimalValue digits)
      else none := by
  induction digits generalizing n with
  | nil => simp [parseDigits, decimalValue]
  | cons c cs ih =>
    rw [parseDigits]
    by_cases hc : isDigit c = true
    · rw [if_pos hc, ih]
      by_cases hcs : cs.all isDigit = true
      · have hall : (c :: cs).all isDigit = true := by
          rw [List.all_cons, hc, hcs]; rfl
        rw [if_pos hcs, if_pos hall]
        congr 1
        rw [decimalValue, List.length_cons, Nat.pow_succ]
        ring
      · have hall : ¬ (c :: cs).all isDigit = true := by
          rw [List.all_cons, hc]; simpa using hcs
        rw [if_neg hcs, if_neg hall]
    · have hall : ¬ (c :: cs).all isDigit = true := by
        rw [List.all_cons]; simp [hc]
      rw [if_neg hc, if_neg hall]

theorem not_isDigit_sign : isDigit '-' = false ∧ isDigit '+' = false := by
  decide

/-- The model of strconv.Atoi returns the integer value of the text when it lies in the
64-bit range, and an error otherwise. -/
theorem Atoi_eq_integerValue (s : String) :
    Atoi s =
      match integerValue s with
      | some n => if -(2 : Int) ^ 63 ≤ n ∧ n < (2 : Int) ^ 63 then some n else none
      | none => none := by
  unfold Atoi integerValue
  cases hs : s.data with
  | nil => rfl
  | cons c rest =>
    dsimp only
    by_cases hm : c = '-'
    · subst hm
      rw [if_pos rfl]
      by_cases hr : rest = []
      · subst hr
        simp
      · have hne : rest.isEmpty = false := by
          cases rest with
          | nil => exact absurd rfl hr
          | cons _ _ => rfl
        simp only [beq_self_eq_true, Bool.true_or, if_true, hne, Bool.false_eq_true, if_false,
          parseDigits_eq, Nat.zero_mul, Nat.zero_add]
        by_cases hd : rest.all isDigit = true
        · rw [if_pos hd, if_pos ⟨hr, hd⟩]
          dsimp only
          by_cases hle : decimalValue rest ≤ 2 ^ 63
          · rw [if_pos hle, if_pos]
            constructor
            · have : ((decimalValue rest : Nat) : Int) ≤ (2 : Int) ^ 63 := by exact_mod_cast hle
              omega
            · have : (0 : Int) ≤ (decimalValue rest : Int) := Int.ofNat_nonneg _
              have h2 : (0 : Int) < (2 : Int) ^ 63 := by norm_num
              omega
          · rw [if_neg hle, if_neg]
            intro hc
            apply hle
            have h1 := hc.1
            have : ((decimalValue rest : Nat) : Int) ≤ (2 : Int) ^ 63 := by omega
            exact_mod_cast this
        · rw [if_neg hd, if_neg (fun h => hd h.2)]
    · rw [if_neg hm]
      have hbm : (c == '-') = false := by simpa using hm
      by_cases hp : c = '+'
      · subst hp
        rw [if_pos rfl]
        by_cases hr : rest = []
        · subst hr
          simp
        · have hne : rest.isEmpty = false := by
            cases rest with
            | nil => exact absurd rfl hr
            | cons _ _ => rfl
          simp only [hbm, beq_self_eq_true, Bool.or_true, if_true, hne, Bool.false_eq_true,
            if_false, parseDigits_eq, Nat.zero_mul, Nat.zero_add]
          by_cases hd : rest.all isDigit = true
          · rw [if_pos hd, if_pos ⟨hr, hd⟩]
            dsimp only
            by_cases hlt : decimalValue rest < 2 ^ 63
            · rw [if_pos hlt, if_pos]
              constructor
              · have : (0 : Int) ≤ (decimalValue rest : Int) := Int.ofNat_nonneg _
                have h2 : (0 : Int) < (2 : Int) ^ 63 := by norm_num
                omega
              · exact_mod_cast hlt
            · rw [if_neg hlt, if_neg]
              intro hc
              apply hlt
              exact_mod_cast hc.2
          · rw [if_neg hd, if_neg (fun h => hd h.2)]
      · rw [if_neg hp]
        have hbp : (c == '+') = false := by simpa using hp
        simp only [hbm, hbp, Bool.or_self, Bool.false_eq_true, if_false, List.isEmpty_cons,
          parseDigits_eq, Nat.zero_mul, Nat.zero_add]
        by_cases hd : (c :: rest).all isDigit = true
        · rw [if_pos hd, if_pos hd]
          dsimp only
          by_cases hlt : decimalValue (c :: rest) < 2 ^ 63
          · rw [if_pos hlt, if_pos]
            constructor
            · have : (0 : Int) ≤ (decimalValue (c :: rest) : Int) := Int.ofNat_nonneg _
              have h2 : (0 : Int) < (2 : Int) ^ 63 := by norm_num
              omega
            · exact_mod_cast hlt
          · rw [if_neg hlt, if_neg]
            intro hc
            apply hlt
            exact_mod_cast hc.2
        · rw [if_neg hd, if_neg hd]

theorem yearBound_eq_rangedBound (param : String) (dflt : Int) :
    yearBound param dflt = rangedBound param dflt := by
  unfold yearBound rangedBound
  rw [Atoi_eq_integerValue]
  cases integerValue param with
  | none => rfl
  | some n =>
    dsimp only
    split_ifs <;> rfl

/-- C12 (as stated, refuted): the text 9223372036854775808 is an integer, but as
minYear it makes the code fall back to 0, so stage 4 keeps Queen (1970) where the
claimed bound keeps nobody; as maxYear it makes the code fall back to 9999, so stage 4
drops an artist of the year 10000 that the claimed bound keeps. -/
theorem filteredByDate_out_of_range_bound :
    integerValue "9223372036854775808" = some 9223372036854775808 ∧
    filteredByDate (yearBound "9223372036854775808" 0) (yearBound "" 9999) [queen] = [queen] ∧
    [queen].filter (fun a =>
      decide (claimedBound "9223372036854775808" 0 ≤ a.CreationDate ∧
        a.CreationDate ≤ claimedBound "" 9999)) = [] ∧
    filteredByDate (yearBound "" 0) (yearBound "9223372036854775808" 9999) [artist10000] = [] ∧
    [artist10000].filter (fun a =>
      decide (claimedBound "" 0 ≤ a.CreationDate ∧
        a.CreationDate ≤ claimedBound "9223372036854775808" 9999)) = [artist10000] := by
  decide

/-- C12 (amended): stage 4 outputs exactly the artists of its input, in input order,
with min ≤ CreationDate ≤ max, both bounds inclusive, where min is the integer value
of minYear when that lies in the 64-bit range of int, and 0 when minYear is missing,
not an integer or outside that range, and max is the integer value of maxYear when
that lies in the range, and 9999 otherwise. -/
theorem filteredByDate_spec (minYear maxYear : String) (filtered : List Artiste) :
    filteredByDate (yearBound minYear 0) (yearBound maxYear 9999) filtered =
      filtered.filter (fun a =>
        decide (rangedBound minYear 0 ≤ a.CreationDate ∧
          a.CreationDate ≤ rangedBound maxYear 9999)) ∧
    (rangedBound "" 0 = 0 ∧ rangedBound "soon" 0 = 0 ∧ rangedBound "1966" 0 = 1966 ∧
      rangedBound "-5" 0 = -5 ∧ rangedBound "9223372036854775807" 0 = 9223372036854775807 ∧
      rangedBound "9223372036854775808" 0 = 0 ∧
      rangedBound "-9223372036854775808" 9999 = -9223372036854775808 ∧
      rangedBound "-9223372036854775809" 9999 = 9999) ∧
    filteredByDate (yearBound "1965" 0) (yearBound "" 9999) [queen, artist1965] =
      [queen, artist1965] ∧
    filteredByDate (yearBound "soon" 0) (yearBound "1969" 9999) [queen, artist1965] =
      [artist1965] := by
  refine ⟨?_, by decide, by decide, by decide⟩
  rw [filteredByDate_eq_filter, yearBound_eq_rangedBound, yearBound_eq_rangedBound]

/-! ## Stage 2: member search -/

/-- C13: for a non-empty memberSearch string stage 2 outputs exactly the artists of
stage 1's output, in order and each occurrence at most once, that have a member whose
lower-cased name contains the lower-cased string; for an empty memberSearch string it
returns stage 1's output unchanged. -/
theorem artistsWithMember_spec (lowerRune : Char → Char) (memberSearch : String)
    (stage1 : List Artiste) :
    (memberSearch ≠ "" →
      artistsWithMember lowerRune memberSearch stage1 =
        stage1.filter (matchesMember lowerRune memberSearch) ∧
      (artistsWithMember lowerRune memberSearch stage1).Sublist stage1) ∧
    (memberSearch = "" → artistsWithMember lowerRune memberSearch stage1 = stage1) := by
  constructor
  · intro hm
    have h : artistsWithMember lowerRune memberSearch stage1 =
        stage1.filter (matchesMember lowerRune memberSearch) := by
      rw [artistsWithMember_eq, if_pos hm]
      apply List.filter_congr
      intro a _
      simp [matchesMember, memberLoop_eq_any]
    exact ⟨h, h ▸ List.filter_sublist _⟩
  · intro hm
    rw [artistsWithMember_eq, if_neg (not_not.mpr hm)]

theorem artistsWithMember_spec_witness :
    artistsWithMember asciiLower "FRED" [artist1965, queen, memberless] = [queen] ∧
    artistsWithMember asciiLower "" [artist1965, queen, memberless] =
      [artist1965, queen, memberless] :=
  ⟨((artistsWithMember_spec asciiLower "FRED" [artist1965, queen, memberless]).1
      (by decide)).1.trans (by decide),
    (artistsWithMember_spec asciiLower "" [artist1965, queen, memberless]).2 rfl⟩

/-! ## Sorting by the year of the first album -/

theorem parseYear_of_date (s : String) (y : Nat) (h : IsDateText s y) :
    parseYear s = (y : Int) := by
  obtain ⟨m, d, hp⟩ := timeParse_of_date s y h
  have hne : s ≠ "" := by
    obtain ⟨d1, d2, m1, m2, y1, y2, y3, y4, rfl, _⟩ := h
    intro hc
    have := congrArg String.data hc
    simp at this
  unfold parseYear
  rw [if_neg hne, hp]

theorem parseYear_of_not_date (s : String) (h : ¬ ∃ y : Nat, IsDateText s y) :
    parseYear s = 0 := by
  unfold parseYear
  split
  · rfl
  · cases hp : timeParse s.data with
    | none => rfl
    | some t =>
      obtain ⟨y, _, hy⟩ := date_of_timeParse s t hp
      exact absurd ⟨y, hy⟩ h

theorem sortLess_firstAlbum_asc (relations : Relation) (a b : Artiste) :
    sortLess "firstAlbum" "asc" relations a b = true ↔
      parseYear a.FirstAlbum < parseYear b.FirstAlbum := by
  simp [sortLess]

theorem sortLess_firstAlbum_desc (relations : Relation) (a b : Artiste) :
    sortLess "firstAlbum" "desc" relations a b = true ↔
      OrderDual.toDual (parseYear a.FirstAlbum) < OrderDual.toDual (parseYear b.FirstAlbum) := by
  simp [sortLess]

/-- C14: with sortBy=firstAlbum the sort stage returns a permutation of its input
ordered by parseYear(FirstAlbum), non-decreasing for orderBy=asc and non-increasing
for orderBy=desc; the artists of any one first-album year keep their relative order,
whatever the day and month; a FirstAlbum that is not a valid date counts as year 0 and
one that is a valid date as its year. -/
theorem sortStage_firstAlbum (relations : Relation) (artists : List Artiste) :
    ((sortStage "firstAlbum" "asc" relations artists).Perm artists ∧
      (sortStage "firstAlbum" "asc" relations artists).Pairwise
        (fun a b => parseYear a.FirstAlbum ≤ parseYear b.FirstAlbum) ∧
      ∀ year : Int,
        (sortStage "firstAlbum" "asc" relations artists).filter
            (fun a => decide (parseYear a.FirstAlbum = year)) =
          artists.filter (fun a => decide (parseYear a.FirstAlbum = year))) ∧
    ((sortStage "firstAlbum" "desc" relations artists).Perm artists ∧
      (sortStage "firstAlbum" "desc" relations artists).Pairwise
        (fun a b => parseYear b.FirstAlbum ≤ parseYear a.FirstAlbum) ∧
      ∀ year : Int,
        (sortStage "firstAlbum" "desc" relations artists).filter
            (fun a => decide (parseYear a.FirstAlbum = year)) =
          artists.filter (fun a => decide (parseYear a.FirstAlbum = year))) ∧
    (∀ a : Artiste, (¬ ∃ y : Nat, IsDateText a.FirstAlbum y) → parseYear a.FirstAlbum = 0) ∧
    (∀ (a : Artiste) (y : Nat), IsDateText a.FirstAlbum y → parseYear a.FirstAlbum = (y : Int)) ∧
    (sortStage "firstAlbum" "asc" relationByNameKey
        [queen, memberless, { queen with FirstAlbum := "1973" }, artist1965,
          { artist1965 with FirstAlbum := "" }, { artist1965 with FirstAlbum := "25-12-1973" }] =
      [{ queen with FirstAlbum := "1973" }, { artist1965 with FirstAlbum := "" }, artist1965,
        queen, { artist1965 with FirstAlbum := "25-12-1973" }, memberless]) := by
  refine ⟨⟨SliceStable_perm _ _, ?_, ?_⟩, ⟨SliceStable_perm _ _, ?_, ?_⟩, ?_, ?_, ?_⟩
  · exact SliceStable_sorted _ (fun a => parseYear a.FirstAlbum)
      (sortLess_firstAlbum_asc relations) artists
  · intro year
    exact SliceStable_filter _ (fun a => parseYear a.FirstAlbum)
      (sortLess_firstAlbum_asc relations) year _ (fun a => by simp) artists
  · exact SliceStable_sorted _ (fun a => OrderDual.toDual (parseYear a.FirstAlbum))
      (sortLess_firstAlbum_desc relations) artists
  · intro year
    exact SliceStable_filter _ (fun a => OrderDual.toDual (parseYear a.FirstAlbum))
      (sortLess_firstAlbum_desc relations) (OrderDual.toDual year) _ (fun a => by simp) artists
  · intro a h
    exact parseYear_of_not_date _ h
  · intro a y h
    exact parseYear_of_date _ y h
  · decide

/-! ## The projections of the view model -/

theorem enumFrom_set_foldl {β : Type} (f : Artiste → β) (d : β) (l : List Artiste)
    (done : List β) :
    (l.enumFrom done.length).foldl (fun acc ia => acc.set ia.1 (f ia.2))
        (done ++ List.replicate l.length d) = done ++ l.map f := by
  induction l generalizing done with
  | nil => simp
  | cons a as ih =>
    have hset : (done ++ List.replicate (as.length + 1) d).set done.length (f a) =
        (done ++ [f a]) ++ List.replicate as.length d := by
      rw [List.replicate_succ, List.set_append_right _ _ (Nat.le_refl _)]
      simp
    have hlen : (done ++ [f a]).length = done.length + 1 := by simp
    rw [List.enumFrom_cons, List.foldl_cons, List.length_cons, hset, ← hlen, ih (done ++ [f a])]
    simp

theorem getArtistNames_eq_map (artists : List Artiste) :
    getArtistNames artists = artists.map (fun a => a.Name) := by
  have h := enumFrom_set_foldl (fun a => a.Name) "" artists []
  simpa [getArtistNames, List.enum] using h

theorem getArtistCreationDates_eq_map (artists : List Artiste) :
    getArtistCreationDates artists = artists.map (fun a => a.CreationDate) := by
  have h := enumFrom_set_foldl (fun a => a.CreationDate) (0 : Int) artists []
  simpa [getArtistCreationDates, List.enum] using h

theorem getArtistMembers_eq_flatten (artists : List Artiste) :
    getArtistMembers artists = (artists.map (fun a => a.Members)).flatten := by
  have h : ∀ (l : List Artiste) (init : List String),
      l.foldl (fun members artist => members ++ artist.Members) init =
        init ++ (l.map (fun a => a.Members)).flatten := by
    intro l
    induction l with
    | nil => intro init; simp
    | cons a as ih => intro init; rw [List.foldl_cons, ih]; simp
  have := h artists []
  simpa [getArtistMembers] using this

/-- C15: getArtistNames and getArtistCreationDates return lists of the length of the
artist list whose i-th element is the i-th artist's Name and CreationDate, and
getArtistMembers returns the concatenation of the Members lists in artist order then
member order, so its length is the sum of the member counts. -/
theorem viewModel_projections (artists : List Artiste) :
    ((getArtistNames artists).length = artists.length ∧
      ∀ i : Nat, (getArtistNames artists)[i]? = artists[i]?.map (fun a => a.Name)) ∧
    ((getArtistCreationDates artists).length = artists.length ∧
      ∀ i : Nat,
        (getArtistCreationDates artists)[i]? = artists[i]?.map (fun a => a.CreationDate)) ∧
    (getArtistMembers artists = (artists.map (fun a => a.Members)).flatten ∧
      (getArtistMembers artists).length = (artists.map (fun a => a.Members.length)).sum) ∧
    getArtistNames [queen, memberless, artist1965] = ["Queen", "Solo", "Scorpions"] ∧
    getArtistCreationDates [queen, memberless, artist1965] = [1970, 1980, 1965] ∧
    getArtistMembers [queen, memberless, artist1965] =
      ["Freddie", "Brian", "Klaus", "Rudolf"] := by
  refine ⟨⟨?_, ?_⟩, ⟨?_, ?_⟩, ⟨getArtistMembers_eq_flatten artists, ?_⟩,
    by decide, by decide, by decide⟩
  · rw [getArtistNames_eq_map, List.length_map]
  · intro i
    rw [getArtistNames_eq_map, List.getElem?_map]
  · rw [getArtistCreationDates_eq_map, List.length_map]
  · intro i
    rw [getArtistCreationDates_eq_map, List.getElem?_map]
  · rw [getArtistMembers_eq_flatten, List.length_flatten, List.map_map]
    rfl

/-! ## Stage 5 as the code decides it -/

theorem relationLoop_congr (selectedCountry artistName : String)
    (index index2 : List RelationEntry)
    (h : List.Forall₂
      (fun e e2 : RelationEntry =>
        mapGet e.DatesLocations artistName = mapGet e2.DatesLocations artistName)
      index index2) :
    relationLoop selectedCountry artistName index2 =
      relationLoop selectedCountry artistName index := by
  induction h with
  | nil => rfl
  | @cons e e2 t t2 hee _ ih =>
    rw [relationLoop, relationLoop, ← hee, ih]

/-- C16: for a non-empty selected country, stage 5 keeps an artist exactly when some
index entry has the artist's Name as a key of its datesLocations map and the list
under that key contains a string whose trimmed last comma-separated segment is the
country; relation sets that agree on what each entry stores under the artists' names
give the same output, whatever their ids and other keys; and an artist whose name is
not a key of any map is dropped. -/
theorem filteredByCountry_by_name (selectedCountry : String) (relations : Relation)
    (filtered : List Artiste) (hc : selectedCountry ≠ "") :
    (∀ A, A ∈ filteredByCountry selectedCountry relations filtered ↔
      A ∈ filtered ∧ ∃ relation ∈ relations.Index, ∃ locations,
        mapGet relation.DatesLocations A.Name = some locations ∧
        ∃ location ∈ locations, lastPartTrimmed location = selectedCountry) ∧
    (filteredByCountry selectedCountry relations filtered).Sublist filtered ∧
    (∀ relations2 : Relation,
      List.Forall₂
        (fun e e2 : RelationEntry =>
          ∀ A ∈ filtered, mapGet e.DatesLocations A.Name = mapGet e2.DatesLocations A.Name)
        relations.Index relations2.Index →
      filteredByCountry selectedCountry relations2 filtered =
        filteredByCountry selectedCountry relations filtered) ∧
    (∀ A, (∀ relation ∈ relations.Index, mapGet relation.DatesLocations A.Name = none) →
      A ∉ filteredByCountry selectedCountry relations filtered) := by
  have hmem : ∀ A, A ∈ filteredByCountry selectedCountry relations filtered ↔
      A ∈ filtered ∧ ∃ relation ∈ relations.Index, ∃ locations,
        mapGet relation.DatesLocations A.Name = some locations ∧
        ∃ location ∈ locations, lastPartTrimmed location = selectedCountry := by
    intro A
    rw [filteredByCountry_eq, if_pos hc, List.mem_filter, relationLoop_iff]
  refine ⟨hmem, ?_, ?_, ?_⟩
  · rw [filteredByCountry_eq, if_pos hc]
    exact List.filter_sublist _
  · intro relations2 h
    rw [filteredByCountry_eq, filteredByCountry_eq, if_pos hc, if_pos hc]
    apply List.filter_congr
    intro A hA
    exact relationLoop_congr selectedCountry A.Name _ _ (h.imp (fun _ _ hab => hab A hA))
  · intro A hnone hA
    obtain ⟨_, relation, hr, locations, hget, _⟩ := (hmem A).mp hA
    rw [hnone relation hr] at hget
    cases hget

theorem filteredByCountry_by_name_witness :
    ("France" : String) ≠ "" ∧
    filteredByCountry "France" relationOtherIdAndKeys [queen, artist1965] =
      filteredByCountry "France" relationByNameKey [queen, artist1965] ∧
    filteredByCountry "France" relationByNameKey [queen, artist1965] = [queen] ∧
    artist1965 ∉ filteredByCountry "France" relationByNameKey [queen, artist1965] :=
  ⟨by decide,
    (filteredByCountry_by_name "France" relationByNameKey [queen, artist1965]
      (by decide)).2.2.1 relationOtherIdAndKeys
      (List.Forall₂.cons (by decide) List.Forall₂.nil),
    by decide,
    (filteredByCountry_by_name "France" relationByNameKey [queen, artist1965]
      (by decide)).2.2.2 artist1965 (by decide)⟩

/-! ## Stage 3 as the code counts -/

theorem count_flatMap_replicate (k : Artiste → Nat) (l : List Artiste) (A : Artiste) :
    (l.flatMap (fun a => List.replicate (k a) a)).count A = l.count A * k A := by
  induction l with
  | nil => simp
  | cons a as ih =>
    rw [List.flatMap_cons, List.count_append, ih, List.count_replicate, List.count_cons]
    by_cases h : a = A
    · subst h
      simp [Nat.add_mul, Nat.add_comm]
    · have h2 : ¬ (a == A) = true := by simpa using h
      simp [h, h2]

/-- C17: for a non-empty numMembers selection, stage 3 outputs each input occurrence
of an artist once per entry of the selection that parses to the artist's member count,
so an artist occurs in the output its number of input occurrences times that number of
entries; when no entry parses as an integer the output is empty. -/
theorem filteredByNumMembers_counts (numMembersFilters : List String)
    (filtered : List Artiste) (hne : numMembersFilters ≠ []) :
    filteredByNumMembers numMembersFilters filtered =
      filtered.flatMap (fun a =>
        List.replicate
          (numMembersFilters.countP
            (fun f => decide (Atoi f = some (a.Members.length : Int)))) a) ∧
    (∀ A : Artiste,
      (filteredByNumMembers numMembersFilters filtered).count A =
        filtered.count A *
          numMembersFilters.countP
            (fun f => decide (Atoi f = some (A.Members.length : Int)))) ∧
    ((∀ f ∈ numMembersFilters, Atoi f = none) →
      filteredByNumMembers numMembersFilters filtered = []) := by
  have hlen : numMembersFilters.length > 0 := List.length_pos.mpr hne
  have heq := filteredByNumMembers_eq numMembersFilters filtered
  rw [if_pos hlen] at heq
  refine ⟨heq, ?_, ?_⟩
  · intro A
    rw [heq]
    exact count_flatMap_replicate
      (fun a => numMembersFilters.countP
        (fun f => decide (Atoi f = some (a.Members.length : Int)))) filtered A
  · intro hall
    rw [heq]
    have hzero : ∀ a : Artiste, numMembersFilters.countP
        (fun f => decide (Atoi f = some (a.Members.length : Int))) = 0 := by
      intro a
      rw [List.countP_eq_zero]
      intro f hf
      simp [hall f hf]
    simp [hzero]

theorem filteredByNumMembers_counts_witness :
    (["2", "two", "+2"] : List String) ≠ [] ∧
    filteredByNumMembers ["2", "two", "+2"] [queen, memberless] = [queen, queen] ∧
    (filteredByNumMembers ["2", "two", "+2"] [queen, memberless]).count queen = 1 * 2 ∧
    filteredByNumMembers ["two", ""] [queen, memberless] = [] :=
  ⟨by decide,
    (filteredByNumMembers_counts ["2", "two", "+2"] [queen, memberless] (by decide)).1.trans
      (by decide),
    ((filteredByNumMembers_counts ["2", "two", "+2"] [queen, memberless] (by decide)).2.1
      queen).trans (by decide),
    (filteredByNumMembers_counts ["two", ""] [queen, memberless] (by decide)).2.2 (by decide)⟩

/-! ## The final list against the fetched list -/

theorem filteredByNumMembers_subset (numMembersFilters : List String)
    (filtered : List Artiste) (A : Artiste)
    (h : A ∈ filteredByNumMembers numMembersFilters filtered) : A ∈ filtered := by
  by_cases hne : numMembersFilters = []
  · subst hne
    exact h
  · exact ((mem_filteredByNumMembers numMembersFilters filtered hne A).mp h).1

theorem countP_Atoi_eq_count (numMembersFilters : List String) (n : Int) :
    numMembersFilters.countP (fun f => decide (Atoi f = some n)) =
      (numMembersFilters.filterMap Atoi).count n := by
  induction numMembersFilters with
  | nil => rfl
  | cons f fs ih =>
    rw [List.countP_cons, ih]
    cases hA : Atoi f with
    | none => simp [List.filterMap_cons, hA]
    | some m =>
      by_cases hm : m = n
      · subst hm
        simp [List.filterMap_cons, hA]
      · have hm2 : ¬ (m == n) = true := by simpa using hm
        simp [List.filterMap_cons, hA, hm, List.count_cons, hm2]

theorem flatMap_replicate_sublist (k : Artiste → Nat) (hk : ∀ a, k a ≤ 1)
    (l : List Artiste) : (l.flatMap (fun a => List.replicate (k a) a)).Sublist l := by
  induction l with
  | nil => exact List.Sublist.slnil
  | cons a as ih =>
    rw [List.flatMap_cons]
    have h1 : (List.replicate (k a) a).Sublist [a] := by
      have := hk a
      interval_cases (k a)
      · exact List.nil_sublist _
      · exact List.Sublist.refl _
    exact List.Sublist.append h1 ih

theorem filteredByNumMembers_sublist (numMembersFilters : List String)
    (filtered : List Artiste) (hnd : (numMembersFilters.filterMap Atoi).Nodup) :
    (filteredByNumMembers numMembersFilters filtered).Sublist filtered := by
  rw [filteredByNumMembers_eq]
  split
  · apply flatMap_replicate_sublist
    intro a
    rw [countP_Atoi_eq_count]
    exact List.nodup_iff_count_le_one.mp hnd _
  · exact List.Sublist.refl _

theorem filterPipeline_subset (lowerRune : Char → Char) (q : Query) (relations : Relation)
    (artists : List Artiste) (A : Artiste)
    (h : A ∈ filterPipeline lowerRune q relations artists) : A ∈ artists := by
  unfold filterPipeline at h
  simp only [filteredByCountry_eq, filteredByDate_eq_filter] at h
  have h4 : A ∈ filteredByNumMembers q.numMembers
      (artistsWithMember lowerRune q.memberSearch
        (filteredArtists lowerRune q.searchQuery artists)) := by
    split at h
    · exact (List.mem_filter.mp (List.mem_filter.mp h).1).1
    · exact (List.mem_filter.mp h).1
  have h2 := filteredByNumMembers_subset _ _ _ h4
  rw [artistsWithMember_eq] at h2
  have h1 : A ∈ filteredArtists lowerRune q.searchQuery artists := by
    split at h2
    · exact (List.mem_filter.mp h2).1
    · exact h2
  rw [filteredArtists_eq_filter] at h1
  exact (List.mem_filter.mp h1).1

theorem filterPipeline_sublist (lowerRune : Char → Char) (q : Query) (relations : Relation)
    (artists : List Artiste) (hnd : (q.numMembers.filterMap Atoi).Nodup) :
    (filterPipeline lowerRune q relations artists).Sublist artists := by
  have s1 : (filteredArtists lowerRune q.searchQuery artists).Sublist artists := by
    rw [filteredArtists_eq_filter]
    exact List.filter_sublist _
  have s2 : (artistsWithMember lowerRune q.memberSearch
      (filteredArtists lowerRune q.searchQuery artists)).Sublist
      (filteredArtists lowerRune q.searchQuery artists) := by
    rw [artistsWithMember_eq]
    split
    · exact List.filter_sublist _
    · exact List.Sublist.refl _
  have s3 := filteredByNumMembers_sublist q.numMembers
    (artistsWithMember lowerRune q.memberSearch
      (filteredArtists lowerRune q.searchQuery artists)) hnd
  have s4 : ∀ l : List Artiste,
      (filteredByDate (yearBound q.minYear 0) (yearBound q.maxYear 9999) l).Sublist l := by
    intro l
    rw [filteredByDate_eq_filter]
    exact List.filter_sublist _
  have s5 : ∀ l : List Artiste, (filteredByCountry q.country relations l).Sublist l := by
    intro l
    rw [filteredByCountry_eq]
    split
    · exact List.filter_sublist _
    · exact List.Sublist.refl _
  unfold filterPipeline
  exact ((((s5 _).trans (s4 _)).trans s3).trans s2).trans s1

/-- C18: every artist of the final list of handleRequest is an element of the fetched
artist list; and when no two entries of the numMembers selection parse to the same
integer, the final list is a permutation of a sublist of the fetched list, so it
contains each artist no more times than the fetched list does. -/
theorem handleRequest_within_input (lowerRune : Char → Char) (q : Query)
    (relations : Relation) (artists : List Artiste) :
    (∀ A ∈ handleRequest lowerRune q relations artists, A ∈ artists) ∧
    ((q.numMembers.filterMap Atoi).Nodup →
      (∃ sub : List Artiste, sub.Sublist artists ∧
        (handleRequest lowerRune q relations artists).Perm sub) ∧
      ∀ A : Artiste, (handleRequest lowerRune q relations artists).count A ≤ artists.count A) := by
  have hperm : (handleRequest lowerRune q relations artists).Perm
      (filterPipeline lowerRune q relations artists) := SliceStable_perm _ _
  constructor
  · intro A hA
    exact filterPipeline_subset lowerRune q relations artists A (hperm.subset hA)
  · intro hnd
    have hsub := filterPipeline_sublist lowerRune q relations artists hnd
    refine ⟨⟨_, hsub, hperm⟩, fun A => ?_⟩
    rw [hperm.count_eq A]
    exact hsub.count_le A

theorem handleRequest_within_input_witness :
    (countQuery.numMembers.filterMap Atoi).Nodup ∧
    handleRequest asciiLower countQuery relationByNameKey [queen, memberless, artist1965] =
      [artist1965, queen] ∧
    (∃ sub : List Artiste, sub.Sublist [queen, memberless, artist1965] ∧
      (handleRequest asciiLower countQuery relationByNameKey
        [queen, memberless, artist1965]).Perm sub) :=
  ⟨by decide, by decide,
    ((handleRequest_within_input asciiLower countQuery relationByNameKey
      [queen, memberless, artist1965]).2 (by decide)).1⟩

end GroupieTracker
